import Mathlib

/-!
Verification of the yoto sync tool: data model, fuzzy matcher wrapper,
sync planner, chapter materialization (commit), playlist update payload,
and the sync orchestration pipeline, shallowly embedded from the
TypeScript sources (src/yoto/sync.ts, src/yoto/api.ts, src/yoto/config.ts,
src/index.ts).

The third-party fuzzy search library (Fuse.js) is not part of this
repository; it is modelled abstractly as a `SearchFn` parameter returning
a list of scored results (Fuse sorts its results by ascending score, so
the head of the list is the best match).  Concrete instantiations used in
counterexamples only rely on uncontroversial Fuse behaviour: a candidate
whose title equals the query is an exact match with score 0, candidates
are reported in candidate order on ties, and entirely dissimilar
candidates are filtered out by the 0.4 threshold option.
-/

/-- Display metadata of a track or chapter (`display?: {icon16x16?: string}`). -/
structure YotoDisplay where
  icon16x16 : Option String
deriving DecidableEq, Repr

/-- A track inside a Yoto chapter (api.ts `YotoTrack`). -/
structure YotoTrack where
  key : String
  title : String
  format : String
  trackUrl : String
  type : String
  duration : Option Nat
  fileSize : Option Nat
  channels : Option String
  display : Option YotoDisplay
deriving DecidableEq, Repr

/-- A chapter of a Yoto playlist card (api.ts `YotoChapter`). -/
structure YotoChapter where
  key : String
  title : String
  tracks : List YotoTrack
  display : Option YotoDisplay
  duration : Option Nat
  fileSize : Option Nat
deriving DecidableEq, Repr

/-- Content configuration of a card (api.ts `YotoContent.config`). -/
structure YotoContentConfig where
  onlineOnly : Bool
deriving DecidableEq, Repr

/-- Content of a Yoto card (api.ts `YotoContent`). -/
structure YotoContent where
  activity : String
  chapters : List YotoChapter
  restricted : Bool
  config : YotoContentConfig
  version : String
deriving DecidableEq, Repr

/-- Cover metadata (api.ts `YotoMetadata.cover`). -/
structure YotoCover where
  imageL : String
deriving DecidableEq, Repr

/-- Card metadata; the loosely typed `media` record is modelled as a
key/value list (api.ts `YotoMetadata`). -/
structure YotoMetadata where
  cover : Option YotoCover
  media : List (String × String)
deriving DecidableEq, Repr

/-- A Yoto playlist card (api.ts `YotoCard`). -/
structure YotoCard where
  cardId : String
  title : String
  content : YotoContent
  metadata : YotoMetadata
  createdAt : Option String
  updatedAt : Option String
deriving DecidableEq, Repr

/-- A YouTube track (index.ts `YouTubeTrack`). -/
structure YouTubeTrack where
  id : String
  title : String
  url : String
deriving DecidableEq, Repr

/-- YouTube playlist info (index.ts `YouTubePlaylistInfo`). -/
structure YouTubePlaylistInfo where
  id : String
  title : String
  tracks : List YouTubeTrack
deriving DecidableEq, Repr

/-- One scored result of a Fuse.js search.  With `includeScore: true`
Fuse attaches a score in `[0,1]` (0 = perfect match); the TypeScript code
nevertheless guards against `undefined`, hence the `Option`. -/
structure FuseResult where
  item : YotoChapter
  score : Option ℚ
deriving DecidableEq, Repr

/-- Abstract model of a Fuse.js search over chapters: given the query and
the candidate list, return the scored results, best (lowest score) first. -/
abbrev SearchFn : Type := String → List YotoChapter → List FuseResult

/-- The similarity threshold used throughout sync.ts (`0.4`), given in a
normal form the kernel can compute with. -/
def matchThreshold : ℚ := Rat.mk' 2 5

/-- sync.ts `fuzzyMatchTrack`: build a Fuse index over the chapters and
accept the first (best) result only when its score is defined and is
strictly below `0.4`. -/
def fuzzyMatchTrack (search : SearchFn) (youtubeTitle : String)
    (yotoChapters : List YotoChapter) : Option YotoChapter :=
  if yotoChapters.isEmpty then
    none
  else
    match search youtubeTitle yotoChapters with
    | [] => none
    | r :: _ =>
      match r.score with
      | none => none
      | some s => if s < matchThreshold then some r.item else none

/-- A Fuse.js search is sound: every returned item comes from the
candidate list. -/
def SearchSound (search : SearchFn) : Prop :=
  ∀ q cs r, r ∈ search q cs → r.item ∈ cs

/-- Concrete `SearchFn` modelling Fuse.js on inputs where every candidate
title is either equal to the query (an exact match: score 0, reported in
candidate order) or entirely dissimilar from it (filtered out by Fuse's
`threshold: 0.4` option). -/
def exactTitleSearch : SearchFn := fun q cs =>
  (cs.filter (fun c => c.title = q)).map (fun c => { item := c, score := some 0 })

/-- Concrete `SearchFn` modelling Fuse.js on inputs where every candidate
scores exactly 0.4 against the query — the threshold boundary case. -/
def atThresholdSearch : SearchFn := fun _ cs =>
  cs.map (fun c => { item := c, score := some matchThreshold })

/-- The action recorded for a sync plan item (sync.ts `SyncAction`). -/
inductive SyncAction where
  | keep
  | add
  | remove
deriving DecidableEq, Repr

/-- One entry of a sync plan (sync.ts `SyncPlanItem`); `position` is `-1`
for removals, the code's encoding of "no position". -/
structure SyncPlanItem where
  position : Int
  action : SyncAction
  title : String
  youtubeTrack : Option YouTubeTrack
  yotoChapter : Option YotoChapter
deriving DecidableEq, Repr

/-- A sync plan with its action counts (sync.ts `SyncPlan`). -/
structure SyncPlan where
  items : List SyncPlanItem
  toKeep : Nat
  toAdd : Nat
  toRemove : Nat
deriving DecidableEq, Repr

/-- The plan item sync.ts `generateSyncPlan` pushes for an added track. -/
def addItem (i : Nat) (t : YouTubeTrack) : SyncPlanItem :=
  { position := (i : Int) + 1, action := SyncAction.add, title := t.title,
    youtubeTrack := some t, yotoChapter := none }

/-- The plan item sync.ts `generateSyncPlan` pushes for a kept track. -/
def keepItem (i : Nat) (t : YouTubeTrack) (c : YotoChapter) : SyncPlanItem :=
  { position := (i : Int) + 1, action := SyncAction.keep, title := t.title,
    youtubeTrack := some t, yotoChapter := some c }

/-- The plan item sync.ts `generateSyncPlan` pushes for a removed
chapter; the `-1` position is the code's encoding of "no position". -/
def removeItem (c : YotoChapter) : SyncPlanItem :=
  { position := -1, action := SyncAction.remove, title := c.title,
    youtubeTrack := none, yotoChapter := some c }

/-- The source-order pass of sync.ts `generateSyncPlan`: walk the YouTube
tracks with index `i` and the set of already matched chapter keys
(modelled as a list), fuzzy matching each track title against the full
chapter list and keeping the match only when its key is unconsumed.
Returns the emitted plan items and the final consumed key set. -/
def planTrackLoop (search : SearchFn) (yotoChapters : List YotoChapter) :
    List YouTubeTrack → Nat → List String → List SyncPlanItem × List String
  | [], _, consumed => ([], consumed)
  | t :: ts, i, consumed =>
    match fuzzyMatchTrack search t.title yotoChapters with
    | some c =>
      if c.key ∈ consumed then
        let rest := planTrackLoop search yotoChapters ts (i + 1) consumed
        (addItem i t :: rest.1, rest.2)
      else
        let rest := planTrackLoop search yotoChapters ts (i + 1) (c.key :: consumed)
        (keepItem i t c :: rest.1, rest.2)
    | none =>
      let rest := planTrackLoop search yotoChapters ts (i + 1) consumed
      (addItem i t :: rest.1, rest.2)

/-- sync.ts `generateSyncPlan`: classify every YouTube track as keep/add
in source order, then emit every chapter whose key was never consumed as
a removal (position `-1`), and count the actions by filtering. -/
def generateSyncPlan (search : SearchFn) (youtubeTracks : List YouTubeTrack)
    (yotoChapters : List YotoChapter) : SyncPlan :=
  let src := planTrackLoop search yotoChapters youtubeTracks 0 []
  let removeItems := (yotoChapters.filter (fun c => c.key ∉ src.2)).map removeItem
  let items := src.1 ++ removeItems
  { items := items
    toKeep := (items.filter (fun i => i.action = SyncAction.keep)).length
    toAdd := (items.filter (fun i => i.action = SyncAction.add)).length
    toRemove := (items.filter (fun i => i.action = SyncAction.remove)).length }

/-- The consumed key set after the first `i` source tracks have been
processed by the planner. -/
def consumedBefore (search : SearchFn) (yotoChapters : List YotoChapter)
    (youtubeTracks : List YouTubeTrack) (i : Nat) : List String :=
  (planTrackLoop search yotoChapters (youtubeTracks.take i) 0 []).2

/-- The chapters referenced by a list of plan items (for the source pass
these are exactly the chapters of keep items). -/
def keptChapters (l : List SyncPlanItem) : List YotoChapter :=
  l.filterMap (fun it => it.yotoChapter)

/-- The keys of the chapters referenced by a list of plan items. -/
def keptKeys (l : List SyncPlanItem) : List String :=
  (keptChapters l).map (fun c => c.key)

/-- Helper: a concrete chapter with only key and title populated. -/
def mkChapter (k t : String) : YotoChapter :=
  { key := k, title := t, tracks := [], display := none,
    duration := none, fileSize := none }

/-- Helper: a concrete YouTube track. -/
def mkTrack (i t : String) : YouTubeTrack :=
  { id := i, title := t, url := "https://youtube.example/" ++ i }

/-- JavaScript `String(n)` on an integer: decimal digits, with a leading
minus sign for negative numbers. -/
def jsIntString (n : Int) : String :=
  if n < 0 then "-" ++ toString n.natAbs else toString n.natAbs

/-- JavaScript `s.padStart(2, "0")`: left-pad with zeros to length 2. -/
def padStart2 (s : String) : String :=
  if s.length < 2 then String.mk (List.replicate (2 - s.length) '0') ++ s else s

/-- api.ts `createChapter`: build a chapter for an uploaded audio file.
The chapter key is the 0-indexed position rendered as a zero-padded
string; the single track references the transcoded asset. -/
def createChapter (title : String) (transcodedSha256 : String) (position : Int)
    (duration : Option Nat) (fileSize : Option Nat) : YotoChapter :=
  { key := padStart2 (jsIntString (position - 1))
    title := title
    tracks := [{ key := "01", title := title, format := "opus",
                 trackUrl := "yoto:#" ++ transcodedSha256, type := "audio",
                 duration := duration, fileSize := fileSize,
                 channels := some "stereo", display := none }]
    display := none
    duration := duration
    fileSize := fileSize }

/-- Result of api.ts `uploadAudio`: the transcoded sha256 (used as asset
key) with duration and file size. -/
structure UploadResult where
  key : String
  duration : Nat
  fileSize : Nat
deriving DecidableEq, Repr

/-- Step 8 of sync.ts `sync`, per item: a kept item contributes its
existing chapter (when present), an added item contributes a chapter
materialized from its uploaded asset (the `uploadedTracks.get(...)!`
non-null assertion is modelled by the total function `uploads`). -/
def materializeItem (uploads : String → UploadResult) (item : SyncPlanItem) :
    Option YotoChapter :=
  if item.action = SyncAction.keep then
    item.yotoChapter
  else if item.action = SyncAction.add then
    item.youtubeTrack.map fun tr =>
      let u := uploads tr.id
      createChapter tr.title u.key item.position (some u.duration) (some u.fileSize)
  else
    none

/-- Step 8 of sync.ts `sync`: the replacement chapter list written at
COMMITTING, built from every non-remove plan item in plan (= position)
order. -/
def buildNewChapters (items : List SyncPlanItem) (uploads : String → UploadResult) :
    List YotoChapter :=
  (items.filter (fun i => i.action ≠ SyncAction.remove)).filterMap
    (materializeItem uploads)

/-- The optional-field updates argument of api.ts `updatePlaylist`. -/
structure PlaylistUpdates where
  title : Option String
  chapters : Option (List YotoChapter)
deriving DecidableEq, Repr

/-- The exact payload api.ts `updatePlaylist` POSTs: only `cardId`,
`title`, `content` and `metadata` are sent. -/
structure YotoCardPayload where
  cardId : String
  title : String
  content : YotoContent
  metadata : YotoMetadata
deriving DecidableEq, Repr

/-- api.ts `updatePlaylist`, given the freshly fetched existing card:
merge the optional updates over the existing card field by field
(`updates.x ?? existing.x`), copying every other field unchanged. -/
def updatePlaylistPayload (existing : YotoCard) (updates : PlaylistUpdates) :
    YotoCardPayload :=
  { cardId := existing.cardId
    title := updates.title.getD existing.title
    content := { activity := existing.content.activity
                 chapters := updates.chapters.getD existing.content.chapters
                 restricted := existing.content.restricted
                 config := existing.content.config
                 version := existing.content.version }
    metadata := existing.metadata }

/-- A persisted source-to-target link (config.ts `PlaylistAssociation`). -/
structure PlaylistAssociation where
  yotoId : String
  yotoName : String
  youtubeName : String
  lastSynced : String
deriving DecidableEq, Repr

/-- Result of sync.ts `resolveYotoPlaylist`. -/
structure ResolvedTarget where
  cardId : String
  title : String
  isNew : Bool
deriving DecidableEq, Repr

/-- Observable effects of one run of sync.ts `sync`, in order:
workspace creation, the "Continue with sync?" prompt, per-track download
and upload, the playlist write (commit), the association upsert
(persist), and workspace removal. -/
inductive SyncEvent where
  | mkdirTemp
  | confirmPrompt
  | downloaded (trackId : String)
  | uploaded (trackId : String)
  | playlistUpdated (cardId : String) (chapters : List YotoChapter)
  | associationSaved (youtubeId : String) (assoc : PlaylistAssociation)
  | removedTemp
deriving DecidableEq, Repr

/-- Recognizer for the commit (playlist write) event. -/
def isCommitEvent : SyncEvent → Bool
  | SyncEvent.playlistUpdated _ _ => true
  | _ => false

/-- Non-error outcomes of a sync run: the in-sync short-circuit, the
user declining the confirmation, or a completed update. -/
inductive SyncOutcome where
  | alreadyInSync
  | cancelled
  | updated
deriving DecidableEq, Repr

/-- Environment of one sync run: the outcome of every external
interaction the orchestrator performs, with errors carried as their
message strings.  `resolveTarget` covers the whole interactive
`resolveYotoPlaylist` step (its "Sync cancelled" abort is an error
value); `now` is the ISO timestamp taken at persist time. -/
structure SyncOracle where
  search : SearchFn
  playlistInfo : Except String YouTubePlaylistInfo
  playlistId : Except String String
  resolveTarget : Except String ResolvedTarget
  getPlaylistCard : Except String YotoCard
  confirmSync : Bool
  download : YouTubeTrack → Except String String
  upload : String → Except String UploadResult
  updateResult : Except String Unit
  persistResult : Except String Unit
  now : String

/-- Step 6 of sync.ts `sync`: download every track to add, sequentially,
aborting the whole batch on the first failure.  Returns the map from
track id to local file path plus the download events that occurred. -/
def downloadLoop (o : SyncOracle) :
    List YouTubeTrack → Except String (List (String × String)) × List SyncEvent
  | [] => (Except.ok [], [])
  | t :: ts =>
    match o.download t with
    | Except.error e => (Except.error e, [])
    | Except.ok path =>
      match downloadLoop o ts with
      | (Except.error e, evs) => (Except.error e, SyncEvent.downloaded t.id :: evs)
      | (Except.ok m, evs) =>
        (Except.ok ((t.id, path) :: m), SyncEvent.downloaded t.id :: evs)

/-- Step 7 of sync.ts `sync`: upload every downloaded file, sequentially,
aborting the whole batch on the first failure. -/
def uploadLoop (o : SyncOracle) :
    List (String × String) → Except String (List (String × UploadResult)) × List SyncEvent
  | [] => (Except.ok [], [])
  | (tid, path) :: ps =>
    match o.upload path with
    | Except.error e => (Except.error e, [])
    | Except.ok u =>
      match uploadLoop o ps with
      | (Except.error e, evs) => (Except.error e, SyncEvent.uploaded tid :: evs)
      | (Except.ok m, evs) =>
        (Except.ok ((tid, u) :: m), SyncEvent.uploaded tid :: evs)

/-- Lookup into the uploaded-tracks map, modelling the non-null
assertion `uploadedTracks.get(track.id)!`. -/
def uploadsFn (m : List (String × UploadResult)) : String → UploadResult :=
  fun tid => (m.lookup tid).getD { key := "", duration := 0, fileSize := 0 }

/-- Steps 6 to 9 of sync.ts `sync` (after the confirmation): download
and upload every track to add and write the new chapter list; when there
is nothing to add but something to remove, write the kept-only list. -/
def commitPhase (o : SyncOracle) (plan : SyncPlan) (tgt : ResolvedTarget) :
    Except String Unit × List SyncEvent :=
  if 0 < plan.toAdd then
    match downloadLoop o
      ((plan.items.filter (fun i => i.action = SyncAction.add)).filterMap
        (fun i => i.youtubeTrack)) with
    | (Except.error e, evs) => (Except.error e, evs)
    | (Except.ok downloaded, devs) =>
      match uploadLoop o downloaded with
      | (Except.error e, uevs) => (Except.error e, devs ++ uevs)
      | (Except.ok uploaded, uevs) =>
        let newChapters := buildNewChapters plan.items (uploadsFn uploaded)
        match o.updateResult with
        | Except.error e => (Except.error e, devs ++ uevs)
        | Except.ok _ =>
          (Except.ok (),
           devs ++ uevs ++ [SyncEvent.playlistUpdated tgt.cardId newChapters])
  else if 0 < plan.toRemove then
    let newChapters :=
      (plan.items.filter
        (fun i => i.action = SyncAction.keep ∧ i.yotoChapter.isSome)).filterMap
        (fun i => i.yotoChapter)
    match o.updateResult with
    | Except.error e => (Except.error e, [])
    | Except.ok _ =>
      (Except.ok (), [SyncEvent.playlistUpdated tgt.cardId newChapters])
  else
    (Except.ok (), [])

/-- The body of sync.ts `sync` inside the `try` block: fetch playlist
info, resolve the target, fetch current chapters, plan, short-circuit
when already in sync, confirm, download, upload, commit the new chapter
list, and persist the association.  Returns the outcome (or the error
that escaped) together with the list of observable events. -/
def syncBody (o : SyncOracle) : Except String SyncOutcome × List SyncEvent :=
  match o.playlistInfo with
  | Except.error e => (Except.error e, [])
  | Except.ok info =>
  match o.playlistId with
  | Except.error e => (Except.error e, [])
  | Except.ok ytId =>
  match o.resolveTarget with
  | Except.error e => (Except.error e, [])
  | Except.ok tgt =>
  match o.getPlaylistCard with
  | Except.error e => (Except.error e, [])
  | Except.ok card =>
  let plan := generateSyncPlan o.search info.tracks card.content.chapters
  if plan.toAdd = 0 ∧ plan.toRemove = 0 then
    (Except.ok SyncOutcome.alreadyInSync, [])
  else if ¬ o.confirmSync then
    (Except.ok SyncOutcome.cancelled, [SyncEvent.confirmPrompt])
  else
    match commitPhase o plan tgt with
    | (Except.error e, evs) => (Except.error e, SyncEvent.confirmPrompt :: evs)
    | (Except.ok _, evs) =>
      match o.persistResult with
      | Except.error e => (Except.error e, SyncEvent.confirmPrompt :: evs)
      | Except.ok _ =>
        (Except.ok SyncOutcome.updated,
         SyncEvent.confirmPrompt :: evs ++
           [SyncEvent.associationSaved ytId
             { yotoId := tgt.cardId, yotoName := tgt.title,
               youtubeName := info.title, lastSynced := o.now }])

/-- sync.ts `sync`: create the temporary workspace, run the body, and
unconditionally remove the workspace (the `finally` block) on every exit
path, error or not. -/
def syncRun (o : SyncOracle) : Except String SyncOutcome × List SyncEvent :=
  match syncBody o with
  | (res, evs) => (res, SyncEvent.mkdirTemp :: (evs ++ [SyncEvent.removedTemp]))

/-- Helper: a card holding the given chapters, with the field values
api.ts `createPlaylist` uses for a fresh card. -/
def mkCard (cid t : String) (chs : List YotoChapter) : YotoCard :=
  { cardId := cid, title := t
    content := { activity := "yoto_Player", chapters := chs, restricted := true,
                 config := { onlineOnly := false }, version := "1" }
    metadata := { cover := none, media := [] }
    createdAt := none, updatedAt := none }

/-- Concrete source list for the re-sync scenario: three tracks, the
middle one new. -/
def tracksABC : List YouTubeTrack :=
  [mkTrack "ta" "Alpha", mkTrack "tb" "Beta", mkTrack "tc" "Gamma"]

/-- Concrete target list for the re-sync scenario: the two old tracks,
with the container-local keys "00" and "01". -/
def chaptersAC : List YotoChapter :=
  [mkChapter "00" "Alpha", mkChapter "01" "Gamma"]

/-- Concrete upload results used when materializing added chapters. -/
def uploadsConst : String → UploadResult :=
  fun _ => { key := "sha256abc", duration := 120, fileSize := 1000 }

/-- The chapter list committed by a first sync run of `tracksABC`
against `chaptersAC`. -/
def committedABC : List YotoChapter :=
  buildNewChapters (generateSyncPlan exactTitleSearch tracksABC chaptersAC).items
    uploadsConst

/-- Oracle for a run with one track to add in which every stage succeeds
except the final association persist. -/
def persistFailOracle : SyncOracle :=
  { search := exactTitleSearch
    playlistInfo := Except.ok { id := "yt1", title := "My Mix",
                                tracks := [mkTrack "ta" "Alpha"] }
    playlistId := Except.ok "PL1"
    resolveTarget := Except.ok { cardId := "card1", title := "Yoto Mix", isNew := false }
    getPlaylistCard := Except.ok (mkCard "card1" "Yoto Mix" [])
    confirmSync := true
    download := fun t => Except.ok ("/yoto-temp/" ++ t.id ++ ".mp3")
    upload := fun _ => Except.ok { key := "sha256abc", duration := 120, fileSize := 1000 }
    updateResult := Except.ok ()
    persistResult := Except.error "persist failed"
    now := "2026-01-01T00:00:00Z" }

/-- Oracle for a run whose target already holds exactly the source (one
kept track): the planner reports nothing to add or remove. -/
def inSyncOracle : SyncOracle :=
  { search := exactTitleSearch
    playlistInfo := Except.ok { id := "yt1", title := "My Mix",
                                tracks := [mkTrack "ta" "Alpha"] }
    playlistId := Except.ok "PL1"
    resolveTarget := Except.ok { cardId := "card1", title := "Yoto Mix", isNew := false }
    getPlaylistCard := Except.ok (mkCard "card1" "Yoto Mix" [mkChapter "00" "Alpha"])
    confirmSync := false
    download := fun t => Except.ok ("/yoto-temp/" ++ t.id ++ ".mp3")
    upload := fun _ => Except.ok { key := "sha256abc", duration := 120, fileSize := 1000 }
    updateResult := Except.ok ()
    persistResult := Except.error "never reached"
    now := "2026-01-01T00:00:00Z" }

/-- Oracle for a run with one track to add whose download fails. -/
def fetchFailOracle : SyncOracle :=
  { search := exactTitleSearch
    playlistInfo := Except.ok { id := "yt1", title := "My Mix",
                                tracks := [mkTrack "ta" "Alpha"] }
    playlistId := Except.ok "PL1"
    resolveTarget := Except.ok { cardId := "card1", title := "Yoto Mix", isNew := false }
    getPlaylistCard := Except.ok (mkCard "card1" "Yoto Mix" [])
    confirmSync := true
    download := fun _ => Except.error "fetch failed"
    upload := fun _ => Except.ok { key := "sha256abc", duration := 120, fileSize := 1000 }
    updateResult := Except.ok ()
    persistResult := Except.ok ()
    now := "2026-01-01T00:00:00Z" }

/-- Unfolding of the source pass on a track with no fuzzy match. -/
theorem planTrackLoop_cons_none (s : SearchFn) (chs : List YotoChapter)
    (t : YouTubeTrack) (ts : List YouTubeTrack) (i : Nat) (consumed : List String)
    (hm : fuzzyMatchTrack s t.title chs = none) :
    planTrackLoop s chs (t :: ts) i consumed =
      (addItem i t :: (planTrackLoop s chs ts (i + 1) consumed).1,
       (planTrackLoop s chs ts (i + 1) consumed).2) := by
  conv_lhs => rw [planTrackLoop]
  rw [hm]

/-- Unfolding of the source pass on a track whose fuzzy match is already
consumed: the track is added, not kept. -/
theorem planTrackLoop_cons_consumed (s : SearchFn) (chs : List YotoChapter)
    (t : YouTubeTrack) (ts : List YouTubeTrack) (i : Nat) (consumed : List String)
    (c : YotoChapter) (hm : fuzzyMatchTrack s t.title chs = some c)
    (hk : c.key ∈ consumed) :
    planTrackLoop s chs (t :: ts) i consumed =
      (addItem i t :: (planTrackLoop s chs ts (i + 1) consumed).1,
       (planTrackLoop s chs ts (i + 1) consumed).2) := by
  conv_lhs => rw [planTrackLoop]
  rw [hm]
  simp only [if_pos hk]

/-- Unfolding of the source pass on a track with a fresh fuzzy match: the
track is kept and the matched key becomes consumed. -/
theorem planTrackLoop_cons_new (s : SearchFn) (chs : List YotoChapter)
    (t : YouTubeTrack) (ts : List YouTubeTrack) (i : Nat) (consumed : List String)
    (c : YotoChapter) (hm : fuzzyMatchTrack s t.title chs = some c)
    (hk : c.key ∉ consumed) :
    planTrackLoop s chs (t :: ts) i consumed =
      (keepItem i t c :: (planTrackLoop s chs ts (i + 1) (c.key :: consumed)).1,
       (planTrackLoop s chs ts (i + 1) (c.key :: consumed)).2) := by
  conv_lhs => rw [planTrackLoop]
  rw [hm]
  simp only [if_neg hk]

/-- Unfolding of a successful fuzzy match: the returned chapter is the
item of the head result, whose score is defined and strictly below the
threshold. -/
theorem fuzzyMatchTrack_eq_some (s : SearchFn) (q : String) (cs : List YotoChapter)
    (c : YotoChapter) (h : fuzzyMatchTrack s q cs = some c) :
    ∃ r rs sc, s q cs = r :: rs ∧ r.score = some sc ∧ sc < matchThreshold ∧
      r.item = c := by
  by_cases he : cs.isEmpty
  · simp [fuzzyMatchTrack, he] at h
  · cases hr : s q cs with
    | nil => simp [fuzzyMatchTrack, he, hr] at h
    | cons r rs =>
      cases hsc : r.score with
      | none => simp [fuzzyMatchTrack, he, hr, hsc] at h
      | some sc =>
        by_cases hlt : sc < matchThreshold
        · refine ⟨r, rs, sc, rfl, hsc, hlt, ?_⟩
          simp [fuzzyMatchTrack, he, hr, hsc, hlt] at h
          exact h
        · simp [fuzzyMatchTrack, he, hr, hsc, hlt] at h

/-- A sound search only matches chapters from the candidate list. -/
theorem fuzzyMatchTrack_mem {s : SearchFn} (hs : SearchSound s)
    {q : String} {cs : List YotoChapter} {c : YotoChapter}
    (h : fuzzyMatchTrack s q cs = some c) : c ∈ cs := by
  obtain ⟨r, rs, sc, hr, _, _, hitem⟩ := fuzzyMatchTrack_eq_some s q cs c h
  have hrmem : r ∈ s q cs := by rw [hr]; exact List.mem_cons_self r rs
  simpa [hitem] using hs q cs r hrmem

/-- The source pass emits exactly one plan item per source track. -/
theorem planTrackLoop_length (s : SearchFn) (chs : List YotoChapter) :
    ∀ (ts : List YouTubeTrack) (i : Nat) (consumed : List String),
      (planTrackLoop s chs ts i consumed).1.length = ts.length := by
  intro ts
  induction ts with
  | nil => intro i consumed; simp [planTrackLoop]
  | cons t ts ih =>
    intro i consumed
    cases hm : fuzzyMatchTrack s t.title chs with
    | none => rw [planTrackLoop_cons_none s chs t ts i consumed hm]; simp [ih]
    | some c =>
      by_cases hk : c.key ∈ consumed
      · rw [planTrackLoop_cons_consumed s chs t ts i consumed c hm hk]; simp [ih]
      · rw [planTrackLoop_cons_new s chs t ts i consumed c hm hk]; simp [ih]

/-- The source pass records the source tracks, in order. -/
theorem planTrackLoop_youtubeTracks (s : SearchFn) (chs : List YotoChapter) :
    ∀ (ts : List YouTubeTrack) (i : Nat) (consumed : List String),
      (planTrackLoop s chs ts i consumed).1.map (fun it => it.youtubeTrack) =
        ts.map some := by
  intro ts
  induction ts with
  | nil => intro i consumed; simp [planTrackLoop]
  | cons t ts ih =>
    intro i consumed
    cases hm : fuzzyMatchTrack s t.title chs with
    | none =>
      rw [planTrackLoop_cons_none s chs t ts i consumed hm]
      simp [addItem, ih]
    | some c =>
      by_cases hk : c.key ∈ consumed
      · rw [planTrackLoop_cons_consumed s chs t ts i consumed c hm hk]
        simp [addItem, ih]
      · rw [planTrackLoop_cons_new s chs t ts i consumed c hm hk]
        simp [keepItem, ih]

/-- The source pass assigns the dense positions `i+1, i+2, ...`. -/
theorem planTrackLoop_positions (s : SearchFn) (chs : List YotoChapter) :
    ∀ (ts : List YouTubeTrack) (i : Nat) (consumed : List String),
      (planTrackLoop s chs ts i consumed).1.map (fun it => it.position) =
        (List.range' (i + 1) ts.length).map (fun j => (j : Int)) := by
  intro ts
  induction ts with
  | nil => intro i consumed; simp [planTrackLoop]
  | cons t ts ih =>
    intro i consumed
    cases hm : fuzzyMatchTrack s t.title chs with
    | none =>
      rw [planTrackLoop_cons_none s chs t ts i consumed hm]
      simp [addItem, ih, List.range'_succ]
    | some c =>
      by_cases hk : c.key ∈ consumed
      · rw [planTrackLoop_cons_consumed s chs t ts i consumed c hm hk]
        simp [addItem, ih, List.range'_succ]
      · rw [planTrackLoop_cons_new s chs t ts i consumed c hm hk]
        simp [keepItem, ih, List.range'_succ]

/-- Every item of the source pass is a keep item carrying a chapter or an
add item carrying none. -/
theorem planTrackLoop_action (s : SearchFn) (chs : List YotoChapter) :
    ∀ (ts : List YouTubeTrack) (i : Nat) (consumed : List String),
      ∀ it ∈ (planTrackLoop s chs ts i consumed).1,
        (it.action = SyncAction.keep ∧ it.yotoChapter.isSome) ∨
        (it.action = SyncAction.add ∧ it.yotoChapter = none) := by
  intro ts
  induction ts with
  | nil => intro i consumed it hit; simp [planTrackLoop] at hit
  | cons t ts ih =>
    intro i consumed it hit
    cases hm : fuzzyMatchTrack s t.title chs with
    | none =>
      rw [planTrackLoop_cons_none s chs t ts i consumed hm] at hit
      rcases List.mem_cons.mp hit with h | h
      · subst h; right; simp [addItem]
      · exact ih (i + 1) consumed it h
    | some c =>
      by_cases hk : c.key ∈ consumed
      · rw [planTrackLoop_cons_consumed s chs t ts i consumed c hm hk] at hit
        rcases List.mem_cons.mp hit with h | h
        · subst h; right; simp [addItem]
        · exact ih (i + 1) consumed it h
      · rw [planTrackLoop_cons_new s chs t ts i consumed c hm hk] at hit
        rcases List.mem_cons.mp hit with h | h
        · subst h; left; simp [keepItem]
        · exact ih (i + 1) (c.key :: consumed) it h

/-- Every item of the source pass has a positive position. -/
theorem planTrackLoop_pos (s : SearchFn) (chs : List YotoChapter) :
    ∀ (ts : List YouTubeTrack) (i : Nat) (consumed : List String),
      ∀ it ∈ (planTrackLoop s chs ts i consumed).1, 1 ≤ it.position := by
  intro ts
  induction ts with
  | nil => intro i consumed it hit; simp [planTrackLoop] at hit
  | cons t ts ih =>
    intro i consumed it hit
    cases hm : fuzzyMatchTrack s t.title chs with
    | none =>
      rw [planTrackLoop_cons_none s chs t ts i consumed hm] at hit
      rcases List.mem_cons.mp hit with h | h
      · subst h; simp [addItem]
      · exact ih (i + 1) consumed it h
    | some c =>
      by_cases hk : c.key ∈ consumed
      · rw [planTrackLoop_cons_consumed s chs t ts i consumed c hm hk] at hit
        rcases List.mem_cons.mp hit with h | h
        · subst h; simp [addItem]
        · exact ih (i + 1) consumed it h
      · rw [planTrackLoop_cons_new s chs t ts i consumed c hm hk] at hit
        rcases List.mem_cons.mp hit with h | h
        · subst h; simp [keepItem]
        · exact ih (i + 1) (c.key :: consumed) it h

theorem keptChapters_nil : keptChapters [] = [] := rfl

theorem keptChapters_cons_add (i : Nat) (t : YouTubeTrack) (l : List SyncPlanItem) :
    keptChapters (addItem i t :: l) = keptChapters l := by
  simp [keptChapters, addItem, List.filterMap_cons]

theorem keptChapters_cons_keep (i : Nat) (t : YouTubeTrack) (c : YotoChapter)
    (l : List SyncPlanItem) :
    keptChapters (keepItem i t c :: l) = c :: keptChapters l := by
  simp [keptChapters, keepItem, List.filterMap_cons]

theorem keptChapters_append (l₁ l₂ : List SyncPlanItem) :
    keptChapters (l₁ ++ l₂) = keptChapters l₁ ++ keptChapters l₂ := by
  simp [keptChapters]

/-- The final consumed set is exactly the keys of the kept chapters
(newest first) on top of the initial consumed set. -/
theorem planTrackLoop_consumed (s : SearchFn) (chs : List YotoChapter) :
    ∀ (ts : List YouTubeTrack) (i : Nat) (consumed : List String),
      (planTrackLoop s chs ts i consumed).2 =
        (keptKeys (planTrackLoop s chs ts i consumed).1).reverse ++ consumed := by
  intro ts
  induction ts with
  | nil => intro i consumed; simp [planTrackLoop, keptKeys, keptChapters]
  | cons t ts ih =>
    intro i consumed
    cases hm : fuzzyMatchTrack s t.title chs with
    | none =>
      rw [planTrackLoop_cons_none s chs t ts i consumed hm]
      simp only [keptKeys, keptChapters_cons_add]
      exact ih (i + 1) consumed
    | some c =>
      by_cases hk : c.key ∈ consumed
      · rw [planTrackLoop_cons_consumed s chs t ts i consumed c hm hk]
        simp only [keptKeys, keptChapters_cons_add]
        exact ih (i + 1) consumed
      · rw [planTrackLoop_cons_new s chs t ts i consumed c hm hk]
        simp only [keptKeys, keptChapters_cons_keep, List.map_cons,
          List.reverse_cons, List.append_assoc, List.singleton_append]
        exact ih (i + 1) (c.key :: consumed)

/-- The kept chapter keys are pairwise distinct and disjoint from the
initial consumed set. -/
theorem planTrackLoop_keptKeys_nodup (s : SearchFn) (chs : List YotoChapter) :
    ∀ (ts : List YouTubeTrack) (i : Nat) (consumed : List String),
      (keptKeys (planTrackLoop s chs ts i consumed).1).Nodup ∧
      ∀ k ∈ keptKeys (planTrackLoop s chs ts i consumed).1, k ∉ consumed := by
  intro ts
  induction ts with
  | nil =>
    intro i consumed
    simp [planTrackLoop, keptKeys, keptChapters]
  | cons t ts ih =>
    intro i consumed
    cases hm : fuzzyMatchTrack s t.title chs with
    | none =>
      rw [planTrackLoop_cons_none s chs t ts i consumed hm]
      simp only [keptKeys, keptChapters_cons_add]
      exact ih (i + 1) consumed
    | some c =>
      by_cases hk : c.key ∈ consumed
      · rw [planTrackLoop_cons_consumed s chs t ts i consumed c hm hk]
        simp only [keptKeys, keptChapters_cons_add]
        exact ih (i + 1) consumed
      · rw [planTrackLoop_cons_new s chs t ts i consumed c hm hk]
        simp only [keptKeys, keptChapters_cons_keep, List.map_cons]
        obtain ⟨ihnd, ihcons⟩ := ih (i + 1) (c.key :: consumed)
        constructor
        · refine List.nodup_cons.mpr ⟨?_, ihnd⟩
          intro hmem
          exact (ihcons c.key hmem) (List.mem_cons_self _ _)
        · intro k hkmem
          rcases List.mem_cons.mp hkmem with h | h
          · subst h; exact hk
          · intro hkc
            exact (ihcons k h) (List.mem_cons_of_mem _ hkc)

/-- For a sound search every kept chapter comes from the target list. -/
theorem planTrackLoop_sound {s : SearchFn} (hs : SearchSound s)
    (chs : List YotoChapter) :
    ∀ (ts : List YouTubeTrack) (i : Nat) (consumed : List String),
      ∀ c ∈ keptChapters (planTrackLoop s chs ts i consumed).1, c ∈ chs := by
  intro ts
  induction ts with
  | nil => intro i consumed c hc; simp [planTrackLoop, keptChapters] at hc
  | cons t ts ih =>
    intro i consumed c hc
    cases hm : fuzzyMatchTrack s t.title chs with
    | none =>
      rw [planTrackLoop_cons_none s chs t ts i consumed hm] at hc
      rw [keptChapters_cons_add] at hc
      exact ih (i + 1) consumed c hc
    | some c' =>
      by_cases hk : c'.key ∈ consumed
      · rw [planTrackLoop_cons_consumed s chs t ts i consumed c' hm hk] at hc
        rw [keptChapters_cons_add] at hc
        exact ih (i + 1) consumed c hc
      · rw [planTrackLoop_cons_new s chs t ts i consumed c' hm hk] at hc
        rw [keptChapters_cons_keep] at hc
        rcases List.mem_cons.mp hc with h | h
        · subst h; exact fuzzyMatchTrack_mem hs hm
        · exact ih (i + 1) (c'.key :: consumed) c h

theorem generateSyncPlan_items (s : SearchFn) (tracks : List YouTubeTrack)
    (chs : List YotoChapter) :
    (generateSyncPlan s tracks chs).items =
      (planTrackLoop s chs tracks 0 []).1 ++
        ((chs.filter (fun c => c.key ∉ (planTrackLoop s chs tracks 0 []).2)).map
          removeItem) := rfl

theorem generateSyncPlan_toKeep (s : SearchFn) (tracks : List YouTubeTrack)
    (chs : List YotoChapter) :
    (generateSyncPlan s tracks chs).toKeep =
      ((generateSyncPlan s tracks chs).items.filter
        (fun i => i.action = SyncAction.keep)).length := rfl

theorem generateSyncPlan_toAdd (s : SearchFn) (tracks : List YouTubeTrack)
    (chs : List YotoChapter) :
    (generateSyncPlan s tracks chs).toAdd =
      ((generateSyncPlan s tracks chs).items.filter
        (fun i => i.action = SyncAction.add)).length := rfl

theorem generateSyncPlan_toRemove (s : SearchFn) (tracks : List YouTubeTrack)
    (chs : List YotoChapter) :
    (generateSyncPlan s tracks chs).toRemove =
      ((generateSyncPlan s tracks chs).items.filter
        (fun i => i.action = SyncAction.remove)).length := rfl

/-- Filtering the removals out of a plan leaves exactly the source pass. -/
theorem generateSyncPlan_filter_nonremove (s : SearchFn)
    (tracks : List YouTubeTrack) (chs : List YotoChapter) :
    (generateSyncPlan s tracks chs).items.filter
        (fun it => it.action ≠ SyncAction.remove) =
      (planTrackLoop s chs tracks 0 []).1 := by
  rw [generateSyncPlan_items, List.filter_append]
  have h1 : (planTrackLoop s chs tracks 0 []).1.filter
      (fun it => it.action ≠ SyncAction.remove) =
      (planTrackLoop s chs tracks 0 []).1 := by
    refine List.filter_eq_self.2 ?_
    intro it hit
    rcases planTrackLoop_action s chs tracks 0 [] it hit with ⟨h, _⟩ | ⟨h, _⟩ <;>
      simp [h]
  have h2 : ((chs.filter
      (fun c => c.key ∉ (planTrackLoop s chs tracks 0 []).2)).map removeItem).filter
        (fun it => it.action ≠ SyncAction.remove) = [] := by
    rw [List.filter_eq_nil_iff]
    intro it hit
    obtain ⟨c, _, hc⟩ := List.mem_map.mp hit
    subst hc
    simp [removeItem]
  rw [h1, h2, List.append_nil]

/-- Claim C6: a plan item has a (positive) position exactly when its
action is keep or add (removals carry the sentinel `-1`, the code's
encoding of "no position"); the positions across the keep/add items are
`1..N`, dense, in plan order, and those items list the source tracks in
source order. -/
theorem C6_positions (s : SearchFn) (tracks : List YouTubeTrack)
    (chs : List YotoChapter) :
    ((generateSyncPlan s tracks chs).items.filter
        (fun it => it.action ≠ SyncAction.remove)).map (fun it => it.position) =
      (List.range' 1 tracks.length).map (fun j => (j : Int)) ∧
    ((generateSyncPlan s tracks chs).items.filter
        (fun it => it.action ≠ SyncAction.remove)).map (fun it => it.youtubeTrack) =
      tracks.map some ∧
    ∀ it ∈ (generateSyncPlan s tracks chs).items,
      (it.action = SyncAction.remove ↔ it.position = -1) := by
  refine ⟨?_, ?_, ?_⟩
  · rw [generateSyncPlan_filter_nonremove]
    exact planTrackLoop_positions s chs tracks 0 []
  · rw [generateSyncPlan_filter_nonremove]
    exact planTrackLoop_youtubeTracks s chs tracks 0 []
  · intro it hit
    rw [generateSyncPlan_items] at hit
    rcases List.mem_append.mp hit with h | h
    · have hpos := planTrackLoop_pos s chs tracks 0 [] it h
      constructor
      · intro hact
        rcases planTrackLoop_action s chs tracks 0 [] it h with ⟨hk, _⟩ | ⟨hk, _⟩ <;>
          simp [hk] at hact
      · intro hp; rw [hp] at hpos; omega
    · obtain ⟨c, _, hc⟩ := List.mem_map.mp h
      subst hc
      simp [removeItem]

/-- Witness for C6 at a concrete input: the removal emitted for the
chapter "Gamma" when syncing a one-track source satisfies the
no-position iff. -/
theorem C6_witness :
    (removeItem (mkChapter "01" "Gamma")).action = SyncAction.remove ↔
      (removeItem (mkChapter "01" "Gamma")).position = -1 :=
  (C6_positions exactTitleSearch [mkTrack "ta" "Alpha"] chaptersAC).2.2
    (removeItem (mkChapter "01" "Gamma")) (by decide)

theorem countP_eq_one_of_nodup_mem {α : Type} [DecidableEq α] :
    ∀ (l : List α) (a : α), l.Nodup → a ∈ l →
      l.countP (fun x => x = a) = 1 := by
  intro l
  induction l with
  | nil => intro a _ ha; simp at ha
  | cons b l ih =>
    intro a hnd ha
    rw [List.countP_cons]
    rcases List.mem_cons.mp ha with h | h
    · subst h
      have hnotmem : a ∉ l := (List.nodup_cons.mp hnd).1
      have hz : l.countP (fun x => x = a) = 0 := by
        refine List.countP_eq_zero.2 ?_
        intro x hx
        simp only [decide_eq_true_eq]
        rintro rfl
        exact hnotmem hx
      simp [hz]
    · have hne : ¬ (b = a) := by
        rintro rfl
        exact (List.nodup_cons.mp hnd).1 h
      have hrec := ih a (List.nodup_cons.mp hnd).2 h
      simp [hrec, hne]

theorem countP_mem_keys (A keys : List String) (hA : A.Nodup) (hk : keys.Nodup)
    (hsub : ∀ k ∈ keys, k ∈ A) :
    A.countP (fun a => a ∈ keys) = keys.length := by
  rw [List.countP_eq_length_filter]
  have hfn : (A.filter (fun a => a ∈ keys)).Nodup := hA.filter _
  have hmemiff : ∀ x, x ∈ A.filter (fun a => a ∈ keys) ↔ x ∈ keys := by
    intro x
    simp only [List.mem_filter, decide_eq_true_eq]
    exact ⟨fun h => h.2, fun h => ⟨hsub x h, h⟩⟩
  exact ((List.perm_ext_iff_of_nodup hfn hk).2 hmemiff).length_eq

/-- Counting plan items that reference a given chapter is counting that
chapter among the referenced chapters. -/
theorem countP_yotoChapter :
    ∀ (l : List SyncPlanItem) (c : YotoChapter),
      l.countP (fun it => it.yotoChapter = some c) =
        (keptChapters l).countP (fun ch => ch = c) := by
  intro l
  induction l with
  | nil => intro c; simp [keptChapters]
  | cons it l ih =>
    intro c
    rw [List.countP_cons]
    cases hch : it.yotoChapter with
    | none =>
      simp [keptChapters, List.filterMap_cons, hch, ih c]
    | some ch =>
      simp only [keptChapters, List.filterMap_cons, hch]
      rw [List.countP_cons]
      simp [ih c, keptChapters]

/-- On a list of keep/add items, keeps and adds partition the length. -/
theorem filter_keep_add_length :
    ∀ (l : List SyncPlanItem),
      (∀ it ∈ l, it.action = SyncAction.keep ∨ it.action = SyncAction.add) →
      (l.filter (fun it => it.action = SyncAction.keep)).length +
        (l.filter (fun it => it.action = SyncAction.add)).length = l.length := by
  intro l
  induction l with
  | nil => intro _; simp
  | cons it l ih =>
    intro h
    have hrest := ih (fun x hx => h x (List.mem_cons_of_mem _ hx))
    rcases h it (List.mem_cons_self _ _) with hk | ha
    · rw [List.filter_cons, List.filter_cons]
      simp only [hk]
      simp only [List.length_cons]
      have : (SyncAction.keep = SyncAction.add) = False := by simp
      simp [this]
      omega
    · rw [List.filter_cons, List.filter_cons]
      simp only [ha]
      have : (SyncAction.add = SyncAction.keep) = False := by simp
      simp [this]
      omega

/-- On a list of keep/add items, the keeps are exactly the items
referencing a chapter. -/
theorem filter_keep_length_eq_kept :
    ∀ (l : List SyncPlanItem),
      (∀ it ∈ l, (it.action = SyncAction.keep ∧ it.yotoChapter.isSome) ∨
        (it.action = SyncAction.add ∧ it.yotoChapter = none)) →
      (l.filter (fun it => it.action = SyncAction.keep)).length =
        (keptChapters l).length := by
  intro l
  induction l with
  | nil => intro _; simp [keptChapters]
  | cons it l ih =>
    intro h
    have hrest := ih (fun x hx => h x (List.mem_cons_of_mem _ hx))
    rcases h it (List.mem_cons_self _ _) with ⟨hk, hsome⟩ | ⟨ha, hnone⟩
    · obtain ⟨c, hc⟩ := Option.isSome_iff_exists.mp hsome
      rw [List.filter_cons]
      simp only [hk]
      simp only [keptChapters, List.filterMap_cons, hc]
      simp [hrest, keptChapters]
    · rw [List.filter_cons]
      simp only [ha]
      have : (SyncAction.add = SyncAction.keep) = False := by simp
      simp only [keptChapters, List.filterMap_cons, hnone]
      simp [this, hrest, keptChapters]

/-- The removal items reference exactly the unmatched chapters. -/
theorem keptChapters_map_removeItem (l : List YotoChapter) :
    keptChapters (l.map removeItem) = l := by
  induction l with
  | nil => rfl
  | cons c l ih =>
    simp only [List.map_cons, keptChapters, List.filterMap_cons, removeItem]
    simpa [keptChapters] using ih

theorem planTrackLoop_fin_mem (s : SearchFn) (chs : List YotoChapter)
    (tracks : List YouTubeTrack) (k : String) :
    k ∈ (planTrackLoop s chs tracks 0 []).2 ↔
      k ∈ keptKeys (planTrackLoop s chs tracks 0 []).1 := by
  rw [planTrackLoop_consumed s chs tracks 0 []]
  simp

theorem plan_filter_keep (s : SearchFn) (tracks : List YouTubeTrack)
    (chs : List YotoChapter) :
    (generateSyncPlan s tracks chs).items.filter
        (fun i => i.action = SyncAction.keep) =
      (planTrackLoop s chs tracks 0 []).1.filter
        (fun i => i.action = SyncAction.keep) := by
  rw [generateSyncPlan_items, List.filter_append]
  have h2 : ((chs.filter
      (fun c => c.key ∉ (planTrackLoop s chs tracks 0 []).2)).map removeItem).filter
        (fun i => i.action = SyncAction.keep) = [] := by
    rw [List.filter_eq_nil_iff]
    intro it hit
    obtain ⟨c, _, rfl⟩ := List.mem_map.mp hit
    simp [removeItem]
  rw [h2, List.append_nil]

theorem plan_filter_add (s : SearchFn) (tracks : List YouTubeTrack)
    (chs : List YotoChapter) :
    (generateSyncPlan s tracks chs).items.filter
        (fun i => i.action = SyncAction.add) =
      (planTrackLoop s chs tracks 0 []).1.filter
        (fun i => i.action = SyncAction.add) := by
  rw [generateSyncPlan_items, List.filter_append]
  have h2 : ((chs.filter
      (fun c => c.key ∉ (planTrackLoop s chs tracks 0 []).2)).map removeItem).filter
        (fun i => i.action = SyncAction.add) = [] := by
    rw [List.filter_eq_nil_iff]
    intro it hit
    obtain ⟨c, _, rfl⟩ := List.mem_map.mp hit
    simp [removeItem]
  rw [h2, List.append_nil]

theorem plan_filter_remove (s : SearchFn) (tracks : List YouTubeTrack)
    (chs : List YotoChapter) :
    (generateSyncPlan s tracks chs).items.filter
        (fun i => i.action = SyncAction.remove) =
      (chs.filter (fun c => c.key ∉ (planTrackLoop s chs tracks 0 []).2)).map
        removeItem := by
  rw [generateSyncPlan_items, List.filter_append]
  have h1 : (planTrackLoop s chs tracks 0 []).1.filter
      (fun i => i.action = SyncAction.remove) = [] := by
    rw [List.filter_eq_nil_iff]
    intro it hit
    rcases planTrackLoop_action s chs tracks 0 [] it hit with ⟨h, _⟩ | ⟨h, _⟩ <;>
      simp [h]
  have h2 : ((chs.filter
      (fun c => c.key ∉ (planTrackLoop s chs tracks 0 []).2)).map removeItem).filter
        (fun i => i.action = SyncAction.remove) =
      (chs.filter (fun c => c.key ∉ (planTrackLoop s chs tracks 0 []).2)).map
        removeItem := by
    refine List.filter_eq_self.2 ?_
    intro it hit
    obtain ⟨c, _, rfl⟩ := List.mem_map.mp hit
    simp [removeItem]
  rw [h1, h2, List.nil_append]

/-- Claim C2, amended: under a sound search and pairwise distinct target
keys, the plan partitions sources into keep/add and targets into
keep/remove, references every target exactly once, and never references
one target key twice. -/
theorem C2_amended (s : SearchFn) (tracks : List YouTubeTrack)
    (chs : List YotoChapter) (hs : SearchSound s)
    (hnd : (chs.map (fun c => c.key)).Nodup) :
    (generateSyncPlan s tracks chs).toKeep + (generateSyncPlan s tracks chs).toAdd =
      tracks.length ∧
    (generateSyncPlan s tracks chs).toKeep +
        (generateSyncPlan s tracks chs).toRemove = chs.length ∧
    (∀ c ∈ chs,
      (generateSyncPlan s tracks chs).items.countP
        (fun it => it.yotoChapter = some c) = 1) ∧
    (keptKeys (generateSyncPlan s tracks chs).items).Nodup := by
  have hact := planTrackLoop_action s chs tracks 0 []
  have hsound := planTrackLoop_sound hs chs tracks 0 []
  have hndK := (planTrackLoop_keptKeys_nodup s chs tracks 0 []).1
  have hfin := planTrackLoop_fin_mem s chs tracks
  have hchsnd : chs.Nodup := List.Nodup.of_map _ hnd
  have hinj : ∀ a ∈ chs, ∀ b ∈ chs, a.key = b.key → a = b := by
    intro a ha b hb hab
    exact List.inj_on_of_nodup_map hnd ha hb hab
  have hsubK : ∀ k ∈ keptKeys (planTrackLoop s chs tracks 0 []).1,
      k ∈ chs.map (fun c => c.key) := by
    intro k hk
    simp only [keptKeys] at hk
    obtain ⟨ch, hch, rfl⟩ := List.mem_map.mp hk
    exact List.mem_map.mpr ⟨ch, hsound ch hch, rfl⟩
  have hkeepK : ((planTrackLoop s chs tracks 0 []).1.filter
      (fun i => i.action = SyncAction.keep)).length =
      (keptKeys (planTrackLoop s chs tracks 0 []).1).length := by
    rw [filter_keep_length_eq_kept _ hact]
    simp [keptKeys]
  refine ⟨?_, ?_, ?_, ?_⟩
  · rw [generateSyncPlan_toKeep, generateSyncPlan_toAdd, plan_filter_keep,
      plan_filter_add]
    rw [filter_keep_add_length _ (fun it hit => by
      rcases hact it hit with ⟨h, _⟩ | ⟨h, _⟩
      · exact Or.inl h
      · exact Or.inr h)]
    exact planTrackLoop_length s chs tracks 0 []
  · rw [generateSyncPlan_toKeep, generateSyncPlan_toRemove, plan_filter_keep,
      plan_filter_remove, hkeepK, List.length_map]
    have hfiltereq : chs.filter
        (fun c => c.key ∉ (planTrackLoop s chs tracks 0 []).2) =
        chs.filter
          (fun c => c.key ∉ keptKeys (planTrackLoop s chs tracks 0 []).1) := by
      refine List.filter_congr ?_
      intro c _
      simp only [decide_eq_decide]
      exact not_congr (hfin c.key)
    rw [hfiltereq]
    have hcount : chs.countP
        (fun c => c.key ∈ keptKeys (planTrackLoop s chs tracks 0 []).1) =
        (keptKeys (planTrackLoop s chs tracks 0 []).1).length := by
      have hmk := countP_mem_keys (chs.map (fun c => c.key))
        (keptKeys (planTrackLoop s chs tracks 0 []).1) hnd hndK hsubK
      rw [List.countP_map] at hmk
      exact hmk
    have htotal := List.length_eq_countP_add_countP
      (fun c : YotoChapter =>
        (c.key ∈ keptKeys (planTrackLoop s chs tracks 0 []).1 : Bool)) chs
    rw [← List.countP_eq_length_filter]
    rw [htotal, hcount]
    congr 1
    refine List.countP_congr ?_
    intro c _
    simp
  · intro c hc
    rw [generateSyncPlan_items, List.countP_append, countP_yotoChapter]
    have hrem : ((chs.filter
        (fun x => x.key ∉ (planTrackLoop s chs tracks 0 []).2)).map
          removeItem).countP (fun it => it.yotoChapter = some c) =
        (chs.filter
          (fun x => x.key ∉ (planTrackLoop s chs tracks 0 []).2)).countP
          (fun x => x = c) := by
      rw [List.countP_map]
      refine List.countP_congr ?_
      intro x _
      simp [Function.comp, removeItem]
    rw [hrem]
    have hKnodup : (keptChapters (planTrackLoop s chs tracks 0 []).1).Nodup := by
      refine List.Nodup.of_map (fun ch => ch.key) ?_
      simpa [keptKeys] using hndK
    by_cases hck : c.key ∈ keptKeys (planTrackLoop s chs tracks 0 []).1
    · have hcmem : c ∈ keptChapters (planTrackLoop s chs tracks 0 []).1 := by
        simp only [keptKeys] at hck
        obtain ⟨ch, hch, hkey⟩ := List.mem_map.mp hck
        have : ch = c := hinj ch (hsound ch hch) c hc hkey
        rwa [this] at hch
      have h1 : (keptChapters (planTrackLoop s chs tracks 0 []).1).countP
          (fun ch => ch = c) = 1 :=
        countP_eq_one_of_nodup_mem _ c hKnodup hcmem
      have h0 : (chs.filter
          (fun x => x.key ∉ (planTrackLoop s chs tracks 0 []).2)).countP
          (fun x => x = c) = 0 := by
        refine List.countP_eq_zero.2 ?_
        intro x hx
        simp only [decide_eq_true_eq]
        rintro rfl
        have := (List.mem_filter.mp hx).2
        simp only [decide_eq_true_eq] at this
        exact this ((hfin x.key).mpr hck)
      omega
    · have h0 : (keptChapters (planTrackLoop s chs tracks 0 []).1).countP
          (fun ch => ch = c) = 0 := by
        refine List.countP_eq_zero.2 ?_
        intro x hx
        simp only [decide_eq_true_eq]
        rintro rfl
        exact hck (by
          simp only [keptKeys]
          exact List.mem_map.mpr ⟨x, hx, rfl⟩)
      have hcfil : c ∈ chs.filter
          (fun x => x.key ∉ (planTrackLoop s chs tracks 0 []).2) := by
        refine List.mem_filter.mpr ⟨hc, ?_⟩
        simp only [decide_eq_true_eq]
        intro hmem
        exact hck ((hfin c.key).mp hmem)
      have h1 : (chs.filter
          (fun x => x.key ∉ (planTrackLoop s chs tracks 0 []).2)).countP
          (fun x => x = c) = 1 :=
        countP_eq_one_of_nodup_mem _ c (hchsnd.filter _) hcfil
      omega
  · rw [generateSyncPlan_items]
    simp only [keptKeys, keptChapters_append, keptChapters_map_removeItem,
      List.map_append]
    refine List.Nodup.append ?_ ?_ ?_
    · simpa [keptKeys] using hndK
    · have heq : (chs.filter
          (fun c => c.key ∉ (planTrackLoop s chs tracks 0 []).2)).map
            (fun c => c.key) =
          (chs.map (fun c => c.key)).filter
            (fun k => k ∉ (planTrackLoop s chs tracks 0 []).2) := by
        exact (@List.filter_map YotoChapter String
          (fun k => (k ∉ (planTrackLoop s chs tracks 0 []).2 : Bool))
          (fun c : YotoChapter => c.key) chs).symm
      rw [heq]
      exact hnd.filter _
    · intro k hk1 hk2
      have hfink : k ∈ (planTrackLoop s chs tracks 0 []).2 :=
        (hfin k).mpr (by simpa [keptKeys] using hk1)
      obtain ⟨c', hc', rfl⟩ := List.mem_map.mp hk2
      have := (List.mem_filter.mp hc').2
      simp only [decide_eq_true_eq] at this
      exact this hfink

theorem exactTitleSearch_sound : SearchSound exactTitleSearch := by
  intro q cs r hr
  simp only [exactTitleSearch] at hr
  obtain ⟨c, hc, rfl⟩ := List.mem_map.mp hr
  exact (List.mem_filter.mp hc).1

/-- Counterexample to claim C2 as stated: with two target chapters
sharing the key "k" (which committed lists can contain, see C10), the
plan keeps one chapter, removes nothing, and never references the other
chapter, so keepCount + removeCount is 1 while there are 2 targets. -/
theorem C2_counterexample :
    (generateSyncPlan exactTitleSearch [mkTrack "1" "A"]
        [mkChapter "k" "A", mkChapter "k" "B"]).toKeep +
      (generateSyncPlan exactTitleSearch [mkTrack "1" "A"]
        [mkChapter "k" "A", mkChapter "k" "B"]).toRemove = 1 ∧
    ([mkChapter "k" "A", mkChapter "k" "B"] : List YotoChapter).length = 2 ∧
    (generateSyncPlan exactTitleSearch [mkTrack "1" "A"]
        [mkChapter "k" "A", mkChapter "k" "B"]).items.countP
      (fun it => it.yotoChapter = some (mkChapter "k" "B")) = 0 := by
  decide

/-- Witness for the amended C2 at a concrete input. -/
theorem C2_witness :
    (generateSyncPlan exactTitleSearch tracksABC chaptersAC).toKeep +
        (generateSyncPlan exactTitleSearch tracksABC chaptersAC).toAdd =
      tracksABC.length ∧
    (generateSyncPlan exactTitleSearch tracksABC chaptersAC).toKeep +
        (generateSyncPlan exactTitleSearch tracksABC chaptersAC).toRemove =
      chaptersAC.length ∧
    (∀ c ∈ chaptersAC,
      (generateSyncPlan exactTitleSearch tracksABC chaptersAC).items.countP
        (fun it => it.yotoChapter = some c) = 1) ∧
    (keptKeys (generateSyncPlan exactTitleSearch tracksABC chaptersAC).items).Nodup :=
  C2_amended exactTitleSearch tracksABC chaptersAC exactTitleSearch_sound (by decide)

/-- The source pass splits along list append, threading the index and the
consumed set. -/
theorem planTrackLoop_append (s : SearchFn) (chs : List YotoChapter) :
    ∀ (xs ys : List YouTubeTrack) (i : Nat) (consumed : List String),
      planTrackLoop s chs (xs ++ ys) i consumed =
        ((planTrackLoop s chs xs i consumed).1 ++
          (planTrackLoop s chs ys (i + xs.length)
            (planTrackLoop s chs xs i consumed).2).1,
         (planTrackLoop s chs ys (i + xs.length)
            (planTrackLoop s chs xs i consumed).2).2) := by
  intro xs
  induction xs with
  | nil =>
    intro ys i consumed
    simp [planTrackLoop]
  | cons x xs ih =>
    intro ys i consumed
    have hlen : i + (x :: xs).length = (i + 1) + xs.length := by
      simp [List.length_cons]
      omega
    cases hm : fuzzyMatchTrack s x.title chs with
    | none =>
      rw [List.cons_append,
        planTrackLoop_cons_none s chs x (xs ++ ys) i consumed hm,
        planTrackLoop_cons_none s chs x xs i consumed hm,
        ih ys (i + 1) consumed, hlen]
      simp
    | some c =>
      by_cases hk : c.key ∈ consumed
      · rw [List.cons_append,
          planTrackLoop_cons_consumed s chs x (xs ++ ys) i consumed c hm hk,
          planTrackLoop_cons_consumed s chs x xs i consumed c hm hk,
          ih ys (i + 1) consumed, hlen]
        simp
      · rw [List.cons_append,
          planTrackLoop_cons_new s chs x (xs ++ ys) i consumed c hm hk,
          planTrackLoop_cons_new s chs x xs i consumed c hm hk,
          ih ys (i + 1) (c.key :: consumed), hlen]
        simp

/-- Claim C1, amended: each source item is fuzzy matched against the FULL
target list; the consumed set only decides between keep and add.  In
particular an item whose best full-list match is already consumed becomes
an add, with no re-match against the unconsumed remainder. -/
theorem C1_amended (s : SearchFn) (tracks : List YouTubeTrack)
    (chs : List YotoChapter) (i : Nat) (t : YouTubeTrack)
    (ht : tracks[i]? = some t) :
    ∃ item, (generateSyncPlan s tracks chs).items[i]? = some item ∧
      ((∃ c, fuzzyMatchTrack s t.title chs = some c ∧
          c.key ∉ consumedBefore s chs tracks i ∧
          item.action = SyncAction.keep ∧ item.yotoChapter = some c) ∨
       ((∀ c, fuzzyMatchTrack s t.title chs = some c →
            c.key ∈ consumedBefore s chs tracks i) ∧
        item.action = SyncAction.add ∧ item.yotoChapter = none)) := by
  have hi : i < tracks.length := (List.getElem?_eq_some_iff.mp ht).choose
  have hgete : tracks[i] = t := by
    have h2 : tracks[i]? = some tracks[i] := List.getElem?_eq_getElem hi
    rw [h2] at ht
    exact Option.some.inj ht
  have htklen : (tracks.take i).length = i := by
    simp [List.length_take]
    omega
  have hsplit : tracks = tracks.take i ++ t :: tracks.drop (i + 1) := by
    conv_lhs => rw [← List.take_append_drop i tracks]
    congr 1
    rw [List.drop_eq_getElem_cons hi, hgete]
  have hitems : (generateSyncPlan s tracks chs).items[i]? =
      (planTrackLoop s chs tracks 0 []).1[i]? := by
    rw [generateSyncPlan_items, List.getElem?_append]
    have : i < (planTrackLoop s chs tracks 0 []).1.length := by
      rw [planTrackLoop_length]
      exact hi
    simp [this]
  have hkey := congrArg
    (fun l => (planTrackLoop s chs l 0 []).1[i]?) hsplit
  simp only at hkey
  rw [planTrackLoop_append s chs (tracks.take i) (t :: tracks.drop (i + 1)) 0 []]
    at hkey
  have hL1len : (planTrackLoop s chs (tracks.take i) 0 []).1.length = i := by
    rw [planTrackLoop_length]
    exact htklen
  rw [List.getElem?_append] at hkey
  rw [hL1len] at hkey
  simp only [Nat.lt_irrefl, if_false, Nat.sub_self] at hkey
  have hidx : 0 + (tracks.take i).length = i := by
    rw [htklen]
    omega
  rw [hidx] at hkey
  have hcb : consumedBefore s chs tracks i =
      (planTrackLoop s chs (tracks.take i) 0 []).2 := rfl
  cases hm : fuzzyMatchTrack s t.title chs with
  | none =>
    rw [planTrackLoop_cons_none s chs t (tracks.drop (i + 1)) i
      (planTrackLoop s chs (tracks.take i) 0 []).2 hm] at hkey
    refine ⟨addItem i t, ?_, Or.inr ⟨?_, by simp [addItem], by simp [addItem]⟩⟩
    · rw [hitems, hkey]
      simp
    · intro c hc
      exact absurd hc (by simp)
  | some c =>
    by_cases hk : c.key ∈ consumedBefore s chs tracks i
    · rw [planTrackLoop_cons_consumed s chs t (tracks.drop (i + 1)) i
        (planTrackLoop s chs (tracks.take i) 0 []).2 c hm (hcb ▸ hk)] at hkey
      refine ⟨addItem i t, ?_, Or.inr ⟨?_, by simp [addItem], by simp [addItem]⟩⟩
      · rw [hitems, hkey]
        simp
      · intro c' hc'
        have : c' = c := (Option.some.inj hc').symm
        rw [this]
        exact hk
    · rw [planTrackLoop_cons_new s chs t (tracks.drop (i + 1)) i
        (planTrackLoop s chs (tracks.take i) 0 []).2 c hm (hcb ▸ hk)] at hkey
      refine ⟨keepItem i t c, ?_,
        Or.inl ⟨c, rfl, hk, by simp [keepItem], by simp [keepItem]⟩⟩
      rw [hitems, hkey]
      simp

/-- Counterexample to claim C1 as stated: with two identically titled
source items and two identically titled target chapters, the second
source item is classified Add (its best full-list match, key "a", is
consumed) even though fuzzy matching the unconsumed remainder succeeds
(chapter with key "b"), which the claim says would yield a Keep. -/
theorem C1_counterexample :
    ((generateSyncPlan exactTitleSearch [mkTrack "1" "X", mkTrack "2" "X"]
        [mkChapter "a" "X", mkChapter "b" "X"]).items[1]?.map
      (fun it => it.action)) = some SyncAction.add ∧
    fuzzyMatchTrack exactTitleSearch "X"
      ([mkChapter "a" "X", mkChapter "b" "X"].filter
        (fun c => c.key ∉ consumedBefore exactTitleSearch
          [mkChapter "a" "X", mkChapter "b" "X"]
          [mkTrack "1" "X", mkTrack "2" "X"] 1)) = some (mkChapter "b" "X") ∧
    consumedBefore exactTitleSearch [mkChapter "a" "X", mkChapter "b" "X"]
      [mkTrack "1" "X", mkTrack "2" "X"] 1 = ["a"] := by
  decide

/-- Witness for the amended C1 at the same concrete input: the second
item exists and falls in the "already consumed, hence add" branch. -/
theorem C1_witness :
    ∃ item, (generateSyncPlan exactTitleSearch
        [mkTrack "1" "X", mkTrack "2" "X"]
        [mkChapter "a" "X", mkChapter "b" "X"]).items[1]? = some item ∧
      ((∃ c, fuzzyMatchTrack exactTitleSearch (mkTrack "2" "X").title
          [mkChapter "a" "X", mkChapter "b" "X"] = some c ∧
          c.key ∉ consumedBefore exactTitleSearch
            [mkChapter "a" "X", mkChapter "b" "X"]
            [mkTrack "1" "X", mkTrack "2" "X"] 1 ∧
          item.action = SyncAction.keep ∧ item.yotoChapter = some c) ∨
       ((∀ c, fuzzyMatchTrack exactTitleSearch (mkTrack "2" "X").title
            [mkChapter "a" "X", mkChapter "b" "X"] = some c →
            c.key ∈ consumedBefore exactTitleSearch
              [mkChapter "a" "X", mkChapter "b" "X"]
              [mkTrack "1" "X", mkTrack "2" "X"] 1) ∧
        item.action = SyncAction.add ∧ item.yotoChapter = none)) :=
  C1_amended exactTitleSearch [mkTrack "1" "X", mkTrack "2" "X"]
    [mkChapter "a" "X", mkChapter "b" "X"] 1 (mkTrack "2" "X") (by decide)

/-- An exact-title match returns a chapter titled like the query. -/
theorem fuzzyMatchTrack_exact_title (q : String) (cs : List YotoChapter)
    (c : YotoChapter) (h : fuzzyMatchTrack exactTitleSearch q cs = some c) :
    c.title = q := by
  obtain ⟨r, rs, sc, hr, _, _, hitem⟩ := fuzzyMatchTrack_eq_some _ q cs c h
  have hrmem : r ∈ exactTitleSearch q cs := by
    rw [hr]
    exact List.mem_cons_self _ _
  simp only [exactTitleSearch] at hrmem
  obtain ⟨c', hc', heq⟩ := List.mem_map.mp hrmem
  have hcc : c' = c := by
    rw [← hitem, ← heq]
  subst hcc
  have := (List.mem_filter.mp hc').2
  simpa using this

/-- In a list with pairwise distinct titles, filtering by the title of a
member returns exactly that member. -/
theorem filter_title_singleton :
    ∀ (done rs : List YotoChapter) (r : YotoChapter),
      (((done ++ r :: rs).map (fun c => c.title)).Nodup) →
      (done ++ r :: rs).filter (fun c => c.title = r.title) = [r] := by
  intro done
  induction done with
  | nil =>
    intro rs r hT
    simp only [List.nil_append, List.filter_cons, decide_eq_true_eq]
    have hnotin : r.title ∉ rs.map (fun c => c.title) := by
      have : ((r :: rs).map (fun c => c.title)).Nodup := by simpa using hT
      exact (List.nodup_cons.mp (by simpa using this)).1
    have h1 : rs.filter (fun c => c.title = r.title) = [] := by
      rw [List.filter_eq_nil_iff]
      intro x hx
      simp only [decide_eq_true_eq]
      intro hx2
      exact hnotin (List.mem_map.mpr ⟨x, hx, hx2⟩)
    simp [h1]
  | cons d done ih =>
    intro rs r hT
    have hmap : ((d :: (done ++ r :: rs)).map (fun c => c.title)).Nodup := by
      rw [← List.cons_append]
      exact hT
    rw [List.map_cons] at hmap
    obtain ⟨hdnot, htail⟩ := List.nodup_cons.mp hmap
    have hd : ¬ (d.title = r.title) := by
      intro he
      refine hdnot ?_
      rw [he]
      exact List.mem_map.mpr ⟨r, List.mem_append_right _ (List.mem_cons_self _ _), rfl⟩
    simp only [List.cons_append, List.filter_cons, hd]
    simpa [hd] using ih rs r htail

/-- When the exact-title filter returns a single chapter, the fuzzy
matcher returns it (score 0 beats the threshold). -/
theorem fuzzyMatchTrack_exactTitleSearch_eq (q : String) (cs : List YotoChapter)
    (r : YotoChapter) (hfil : cs.filter (fun c => c.title = q) = [r]) :
    fuzzyMatchTrack exactTitleSearch q cs = some r := by
  have hne : cs.isEmpty = false := by
    cases cs with
    | nil => simp at hfil
    | cons a l => rfl
  have hsearch : exactTitleSearch q cs =
      [{ item := r, score := some 0 }] := by
    simp [exactTitleSearch, hfil]
  unfold fuzzyMatchTrack
  rw [hsearch]
  simp [hne, show (0 : ℚ) < matchThreshold from by decide]

/-- With pairwise distinct titles and keys, syncing a source list whose
titles are exactly the titles of the not-yet-processed suffix keeps every
track and ends with every chapter key consumed. -/
theorem planTrackLoop_exact_allKeep (full : List YotoChapter)
    (hT : (full.map (fun c => c.title)).Nodup)
    (hK : (full.map (fun c => c.key)).Nodup) :
    ∀ (ts : List YouTubeTrack) (done rest : List YotoChapter) (i : Nat)
      (consumed : List String),
      full = done ++ rest →
      ts.map (fun t => t.title) = rest.map (fun c => c.title) →
      (∀ k, k ∈ consumed ↔ k ∈ done.map (fun c => c.key)) →
      (∀ it ∈ (planTrackLoop exactTitleSearch full ts i consumed).1,
        it.action = SyncAction.keep) ∧
      (∀ k, k ∈ (planTrackLoop exactTitleSearch full ts i consumed).2 ↔
        (k ∈ consumed ∨ k ∈ rest.map (fun c => c.key))) := by
  intro ts
  induction ts with
  | nil =>
    intro done rest i consumed hfull hmap hcons
    have hrest : rest = [] := by
      have := hmap.symm
      simp only [List.map_nil] at this
      exact List.map_eq_nil_iff.mp this
    subst hrest
    constructor
    · intro it hit
      simp [planTrackLoop] at hit
    · intro k
      simp [planTrackLoop]
  | cons t ts ih =>
    intro done rest i consumed hfull hmap hcons
    cases rest with
    | nil => simp at hmap
    | cons r rs =>
      simp only [List.map_cons, List.cons.injEq] at hmap
      obtain ⟨hthead, htail⟩ := hmap
      have hfil : full.filter (fun c => c.title = t.title) = [r] := by
        rw [hthead, hfull]
        exact filter_title_singleton done rs r (hfull ▸ hT)
      have hm : fuzzyMatchTrack exactTitleSearch t.title full = some r :=
        fuzzyMatchTrack_exactTitleSearch_eq t.title full r hfil
      have hknotdone : r.key ∉ done.map (fun c => c.key) := by
        intro hin
        have hfullmap : full.map (fun c => c.key) =
            done.map (fun c => c.key) ++ r.key :: rs.map (fun c => c.key) := by
          simp [hfull]
        have hd := List.disjoint_of_nodup_append (hfullmap ▸ hK)
        exact hd hin (List.mem_cons_self _ _)
      have hknot : r.key ∉ consumed := fun hin => hknotdone ((hcons r.key).mp hin)
      rw [planTrackLoop_cons_new exactTitleSearch full t ts i consumed r hm hknot]
      have hcons' : ∀ k, k ∈ r.key :: consumed ↔
          k ∈ (done ++ [r]).map (fun c => c.key) := by
        intro k
        simp only [List.mem_cons, List.map_append, List.mem_append,
          List.map_cons, List.map_nil, List.mem_singleton]
        rw [hcons k]
        tauto
      have hfull' : full = (done ++ [r]) ++ rs := by
        rw [hfull]
        simp
      obtain ⟨ihkeep, ihfin⟩ := ih (done ++ [r]) rs (i + 1) (r.key :: consumed)
        hfull' htail hcons'
      constructor
      · intro it hit
        rcases List.mem_cons.mp hit with h | h
        · subst h
          simp [keepItem]
        · exact ihkeep it h
      · intro k
        rw [ihfin k]
        simp only [List.mem_cons, List.map_cons]
        tauto

/-- Under exact-title matching, the chapter list committed for a plan
carries exactly the source titles, in source order. -/
theorem buildNewChapters_titles (tracks : List YouTubeTrack)
    (chapters : List YotoChapter) (uploads : String → UploadResult) :
    (buildNewChapters (generateSyncPlan exactTitleSearch tracks chapters).items
        uploads).map (fun c => c.title) = tracks.map (fun t => t.title) := by
  rw [buildNewChapters, generateSyncPlan_filter_nonremove]
  suffices h : ∀ (ts : List YouTubeTrack) (i : Nat) (consumed : List String),
      (((planTrackLoop exactTitleSearch chapters ts i consumed).1.filterMap
        (materializeItem uploads)).map (fun c => c.title)) =
        ts.map (fun t => t.title) by
    exact h tracks 0 []
  intro ts
  induction ts with
  | nil => intro i consumed; simp [planTrackLoop]
  | cons t ts ih =>
    intro i consumed
    cases hm : fuzzyMatchTrack exactTitleSearch t.title chapters with
    | none =>
      rw [planTrackLoop_cons_none exactTitleSearch chapters t ts i consumed hm]
      rw [List.filterMap_cons]
      simp only [materializeItem, addItem, createChapter]
      simp [ih]
    | some c =>
      by_cases hk : c.key ∈ consumed
      · rw [planTrackLoop_cons_consumed exactTitleSearch chapters t ts i consumed
          c hm hk]
        rw [List.filterMap_cons]
        simp only [materializeItem, addItem, createChapter]
        simp [ih]
      · rw [planTrackLoop_cons_new exactTitleSearch chapters t ts i consumed
          c hm hk]
        rw [List.filterMap_cons]
        simp only [materializeItem, keepItem]
        have htitle : c.title = t.title := fuzzyMatchTrack_exact_title _ _ _ hm
        simp [ih, htitle]

/-- Claim C3, amended: re-running the planner on the committed chapter
list is a fixed point (no adds, no removes), provided the source titles
are pairwise distinct and the committed chapter keys are pairwise
distinct (the counterexample shows the claim fails when a created
chapter key collides with a kept one). -/
theorem C3_amended (tracks : List YouTubeTrack) (chapters : List YotoChapter)
    (uploads : String → UploadResult)
    (hT : (tracks.map (fun t => t.title)).Nodup)
    (hK : ((buildNewChapters
        (generateSyncPlan exactTitleSearch tracks chapters).items uploads).map
          (fun c => c.key)).Nodup) :
    (generateSyncPlan exactTitleSearch tracks
      (buildNewChapters (generateSyncPlan exactTitleSearch tracks chapters).items
        uploads)).toAdd = 0 ∧
    (generateSyncPlan exactTitleSearch tracks
      (buildNewChapters (generateSyncPlan exactTitleSearch tracks chapters).items
        uploads)).toRemove = 0 := by
  have htitles := buildNewChapters_titles tracks chapters uploads
  have hTfull : ((buildNewChapters
      (generateSyncPlan exactTitleSearch tracks chapters).items uploads).map
        (fun c => c.title)).Nodup := by
    rw [htitles]
    exact hT
  obtain ⟨hallkeep, hfin⟩ := planTrackLoop_exact_allKeep
    (buildNewChapters (generateSyncPlan exactTitleSearch tracks chapters).items
      uploads) hTfull hK tracks []
    (buildNewChapters (generateSyncPlan exactTitleSearch tracks chapters).items
      uploads) 0 [] (by simp) htitles.symm (by simp)
  constructor
  · rw [generateSyncPlan_toAdd, plan_filter_add]
    rw [List.length_eq_zero, List.filter_eq_nil_iff]
    intro it hit
    have := hallkeep it hit
    simp [this]
  · rw [generateSyncPlan_toRemove, plan_filter_remove]
    rw [List.length_eq_zero, List.map_eq_nil_iff, List.filter_eq_nil_iff]
    intro c hc
    simp only [decide_eq_true_eq, Decidable.not_not]
    refine (hfin c.key).mpr ?_
    right
    exact List.mem_map.mpr ⟨c, hc, rfl⟩

/-- Counterexample to claim C3 as stated: committing the plan for source
[Alpha, Beta, Gamma] against targets with keys 00 (Alpha) and 01 (Gamma)
creates a "Beta" chapter whose key "01" collides with the kept "Gamma"
chapter; re-planning the unchanged source against that committed list
yields one Add, not zero. -/
theorem C3_counterexample :
    (generateSyncPlan exactTitleSearch tracksABC chaptersAC).toAdd = 1 ∧
    committedABC.map (fun c => c.key) = ["00", "01", "01"] ∧
    committedABC.map (fun c => c.title) = ["Alpha", "Beta", "Gamma"] ∧
    (generateSyncPlan exactTitleSearch tracksABC committedABC).toAdd = 1 ∧
    (generateSyncPlan exactTitleSearch tracksABC committedABC).toRemove = 0 := by
  decide

/-- Witness for the amended C3 at a concrete input where all chapters are
newly created (keys "00" and "01", no collision). -/
theorem C3_witness :
    (generateSyncPlan exactTitleSearch [mkTrack "ta" "Alpha", mkTrack "tb" "Beta"]
      (buildNewChapters (generateSyncPlan exactTitleSearch
        [mkTrack "ta" "Alpha", mkTrack "tb" "Beta"] []).items
        uploadsConst)).toAdd = 0 ∧
    (generateSyncPlan exactTitleSearch [mkTrack "ta" "Alpha", mkTrack "tb" "Beta"]
      (buildNewChapters (generateSyncPlan exactTitleSearch
        [mkTrack "ta" "Alpha", mkTrack "tb" "Beta"] []).items
        uploadsConst)).toRemove = 0 :=
  C3_amended [mkTrack "ta" "Alpha", mkTrack "tb" "Beta"] [] uploadsConst
    (by decide) (by decide)

/-- The threshold constant is the 0.4 of the source. -/
theorem matchThreshold_eq : matchThreshold = 2 / 5 := by
  rw [matchThreshold, Rat.mk'_eq_divInt, Rat.divInt_eq_div]
  norm_num

/-- The download phase only emits download events. -/
theorem downloadLoop_events (o : SyncOracle) :
    ∀ (ts : List YouTubeTrack), ∀ ev ∈ (downloadLoop o ts).2,
      ∃ tid, ev = SyncEvent.downloaded tid := by
  intro ts
  induction ts with
  | nil => intro ev hev; simp [downloadLoop] at hev
  | cons t ts ih =>
    intro ev hev
    simp only [downloadLoop] at hev
    cases hd : o.download t with
    | error e => rw [hd] at hev; simp at hev
    | ok path =>
      rw [hd] at hev
      rcases hrec : downloadLoop o ts with ⟨res, evs⟩
      rw [hrec] at hev
      cases res with
      | error e =>
        simp only [List.mem_cons] at hev
        rcases hev with h | h
        · exact ⟨t.id, h⟩
        · exact ih ev (by rw [hrec]; exact h)
      | ok m =>
        simp only [List.mem_cons] at hev
        rcases hev with h | h
        · exact ⟨t.id, h⟩
        · exact ih ev (by rw [hrec]; exact h)

/-- The upload phase only emits upload events. -/
theorem uploadLoop_events (o : SyncOracle) :
    ∀ (ps : List (String × String)), ∀ ev ∈ (uploadLoop o ps).2,
      ∃ tid, ev = SyncEvent.uploaded tid := by
  intro ps
  induction ps with
  | nil => intro ev hev; simp [uploadLoop] at hev
  | cons p ps ih =>
    intro ev hev
    rcases p with ⟨tid, path⟩
    simp only [uploadLoop] at hev
    cases hu : o.upload path with
    | error e => rw [hu] at hev; simp at hev
    | ok u =>
      rw [hu] at hev
      rcases hrec : uploadLoop o ps with ⟨res, evs⟩
      rw [hrec] at hev
      cases res with
      | error e =>
        simp only [List.mem_cons] at hev
        rcases hev with h | h
        · exact ⟨tid, h⟩
        · exact ih ev (by rw [hrec]; exact h)
      | ok m =>
        simp only [List.mem_cons] at hev
        rcases hev with h | h
        · exact ⟨tid, h⟩
        · exact ih ev (by rw [hrec]; exact h)

theorem syncBody_info_error (o : SyncOracle) (e : String)
    (h : o.playlistInfo = Except.error e) : syncBody o = (Except.error e, []) := by
  unfold syncBody
  rw [h]

theorem syncBody_id_error (o : SyncOracle) (info : YouTubePlaylistInfo) (e : String)
    (hinfo : o.playlistInfo = Except.ok info)
    (h : o.playlistId = Except.error e) : syncBody o = (Except.error e, []) := by
  unfold syncBody
  rw [hinfo, h]

theorem syncBody_tgt_error (o : SyncOracle) (info : YouTubePlaylistInfo)
    (ytId : String) (e : String)
    (hinfo : o.playlistInfo = Except.ok info)
    (hid : o.playlistId = Except.ok ytId)
    (h : o.resolveTarget = Except.error e) : syncBody o = (Except.error e, []) := by
  unfold syncBody
  rw [hinfo, hid, h]

theorem syncBody_card_error (o : SyncOracle) (info : YouTubePlaylistInfo)
    (ytId : String) (tgt : ResolvedTarget) (e : String)
    (hinfo : o.playlistInfo = Except.ok info)
    (hid : o.playlistId = Except.ok ytId)
    (htgt : o.resolveTarget = Except.ok tgt)
    (h : o.getPlaylistCard = Except.error e) : syncBody o = (Except.error e, []) := by
  unfold syncBody
  rw [hinfo, hid, htgt, h]

theorem syncBody_ok (o : SyncOracle) (info : YouTubePlaylistInfo) (ytId : String)
    (tgt : ResolvedTarget) (card : YotoCard)
    (hinfo : o.playlistInfo = Except.ok info)
    (hid : o.playlistId = Except.ok ytId)
    (htgt : o.resolveTarget = Except.ok tgt)
    (hcard : o.getPlaylistCard = Except.ok card) :
    syncBody o =
      (let plan := generateSyncPlan o.search info.tracks card.content.chapters
       if plan.toAdd = 0 ∧ plan.toRemove = 0 then
         (Except.ok SyncOutcome.alreadyInSync, [])
       else if ¬ o.confirmSync then
         (Except.ok SyncOutcome.cancelled, [SyncEvent.confirmPrompt])
       else
         match commitPhase o plan tgt with
         | (Except.error e, evs) => (Except.error e, SyncEvent.confirmPrompt :: evs)
         | (Except.ok _, evs) =>
           match o.persistResult with
           | Except.error e => (Except.error e, SyncEvent.confirmPrompt :: evs)
           | Except.ok _ =>
             (Except.ok SyncOutcome.updated,
              SyncEvent.confirmPrompt :: evs ++
                [SyncEvent.associationSaved ytId
                  { yotoId := tgt.cardId, yotoName := tgt.title,
                    youtubeName := info.title, lastSynced := o.now }])) := by
  unfold syncBody
  rw [hinfo, hid, htgt, hcard]

theorem downloadLoop_no_commit (o : SyncOracle) (ts : List YouTubeTrack) :
    (downloadLoop o ts).2.countP isCommitEvent = 0 :=
  List.countP_eq_zero.2 (fun ev hev => by
    obtain ⟨tid, rfl⟩ := downloadLoop_events o ts ev hev
    simp [isCommitEvent])

theorem uploadLoop_no_commit (o : SyncOracle) (ps : List (String × String)) :
    (uploadLoop o ps).2.countP isCommitEvent = 0 :=
  List.countP_eq_zero.2 (fun ev hev => by
    obtain ⟨tid, rfl⟩ := uploadLoop_events o ps ev hev
    simp [isCommitEvent])

theorem commitPhase_dl_error (o : SyncOracle) (plan : SyncPlan)
    (tgt : ResolvedTarget) (e : String) (devs : List SyncEvent)
    (hadd : 0 < plan.toAdd)
    (hdl : downloadLoop o
      ((plan.items.filter (fun i => i.action = SyncAction.add)).filterMap
        (fun i => i.youtubeTrack)) = (Except.error e, devs)) :
    commitPhase o plan tgt = (Except.error e, devs) := by
  unfold commitPhase
  rw [if_pos hadd]
  simp only [hdl]

theorem commitPhase_ul_error (o : SyncOracle) (plan : SyncPlan)
    (tgt : ResolvedTarget) (e : String) (downloaded : List (String × String))
    (devs uevs : List SyncEvent) (hadd : 0 < plan.toAdd)
    (hdl : downloadLoop o
      ((plan.items.filter (fun i => i.action = SyncAction.add)).filterMap
        (fun i => i.youtubeTrack)) = (Except.ok downloaded, devs))
    (hul : uploadLoop o downloaded = (Except.error e, uevs)) :
    commitPhase o plan tgt = (Except.error e, devs ++ uevs) := by
  unfold commitPhase
  rw [if_pos hadd]
  simp only [hdl, hul]

theorem commitPhase_update_error (o : SyncOracle) (plan : SyncPlan)
    (tgt : ResolvedTarget) (e : String) (downloaded : List (String × String))
    (uploaded : List (String × UploadResult)) (devs uevs : List SyncEvent)
    (hadd : 0 < plan.toAdd)
    (hdl : downloadLoop o
      ((plan.items.filter (fun i => i.action = SyncAction.add)).filterMap
        (fun i => i.youtubeTrack)) = (Except.ok downloaded, devs))
    (hul : uploadLoop o downloaded = (Except.ok uploaded, uevs))
    (hup : o.updateResult = Except.error e) :
    commitPhase o plan tgt = (Except.error e, devs ++ uevs) := by
  unfold commitPhase
  rw [if_pos hadd]
  simp only [hdl, hul, hup]

theorem commitPhase_commit (o : SyncOracle) (plan : SyncPlan)
    (tgt : ResolvedTarget) (downloaded : List (String × String))
    (uploaded : List (String × UploadResult)) (devs uevs : List SyncEvent)
    (hadd : 0 < plan.toAdd)
    (hdl : downloadLoop o
      ((plan.items.filter (fun i => i.action = SyncAction.add)).filterMap
        (fun i => i.youtubeTrack)) = (Except.ok downloaded, devs))
    (hul : uploadLoop o downloaded = (Except.ok uploaded, uevs))
    (hup : o.updateResult = Except.ok ()) :
    commitPhase o plan tgt =
      (Except.ok (), devs ++ uevs ++
        [SyncEvent.playlistUpdated tgt.cardId
          (buildNewChapters plan.items (uploadsFn uploaded))]) := by
  unfold commitPhase
  rw [if_pos hadd]
  simp only [hdl, hul, hup]

theorem commitPhase_rm_error (o : SyncOracle) (plan : SyncPlan)
    (tgt : ResolvedTarget) (e : String) (hadd : ¬ 0 < plan.toAdd)
    (hrem : 0 < plan.toRemove) (hup : o.updateResult = Except.error e) :
    commitPhase o plan tgt = (Except.error e, []) := by
  unfold commitPhase
  rw [if_neg hadd, if_pos hrem]
  simp only [hup]

theorem commitPhase_rm_commit (o : SyncOracle) (plan : SyncPlan)
    (tgt : ResolvedTarget) (hadd : ¬ 0 < plan.toAdd)
    (hrem : 0 < plan.toRemove) (hup : o.updateResult = Except.ok ()) :
    commitPhase o plan tgt =
      (Except.ok (), [SyncEvent.playlistUpdated tgt.cardId
        ((plan.items.filter
          (fun i => i.action = SyncAction.keep ∧ i.yotoChapter.isSome)).filterMap
          (fun i => i.yotoChapter))]) := by
  unfold commitPhase
  rw [if_neg hadd, if_pos hrem]
  simp only [hup]

theorem commitPhase_noop (o : SyncOracle) (plan : SyncPlan)
    (tgt : ResolvedTarget) (hadd : ¬ 0 < plan.toAdd)
    (hrem : ¬ 0 < plan.toRemove) :
    commitPhase o plan tgt = (Except.ok (), []) := by
  unfold commitPhase
  rw [if_neg hadd, if_neg hrem]

/-- The commit phase writes the playlist at most once, and only on its
success path. -/
theorem commitPhase_spec (o : SyncOracle) (plan : SyncPlan) (tgt : ResolvedTarget) :
    (commitPhase o plan tgt).2.countP isCommitEvent ≤ 1 ∧
    (∀ cid chs, SyncEvent.playlistUpdated cid chs ∈ (commitPhase o plan tgt).2 →
      (commitPhase o plan tgt).1 = Except.ok ()) := by
  have hdevmem : ∀ ts cid chs,
      SyncEvent.playlistUpdated cid chs ∉ (downloadLoop o ts).2 := by
    intro ts cid chs hmem
    obtain ⟨tid, heq⟩ := downloadLoop_events o ts _ hmem
    simp at heq
  have huevmem : ∀ ps cid chs,
      SyncEvent.playlistUpdated cid chs ∉ (uploadLoop o ps).2 := by
    intro ps cid chs hmem
    obtain ⟨tid, heq⟩ := uploadLoop_events o ps _ hmem
    simp at heq
  by_cases hadd : 0 < plan.toAdd
  · rcases hdl : downloadLoop o
      ((plan.items.filter (fun i => i.action = SyncAction.add)).filterMap
        (fun i => i.youtubeTrack)) with ⟨dres, devs⟩
    have hdevs0 : devs.countP isCommitEvent = 0 := by
      have := downloadLoop_no_commit o
        ((plan.items.filter (fun i => i.action = SyncAction.add)).filterMap
          (fun i => i.youtubeTrack))
      rw [hdl] at this
      exact this
    have hdevsmem : ∀ cid chs, SyncEvent.playlistUpdated cid chs ∉ devs := by
      intro cid chs hmem
      refine hdevmem ((plan.items.filter
        (fun i => i.action = SyncAction.add)).filterMap
        (fun i => i.youtubeTrack)) cid chs ?_
      rw [hdl]
      exact hmem
    cases dres with
    | error e =>
      rw [commitPhase_dl_error o plan tgt e devs hadd hdl]
      refine ⟨by simp [hdevs0], ?_⟩
      intro cid chs hmem
      exact absurd hmem (hdevsmem cid chs)
    | ok downloaded =>
      rcases hul : uploadLoop o downloaded with ⟨ures, uevs⟩
      have huevs0 : uevs.countP isCommitEvent = 0 := by
        have := uploadLoop_no_commit o downloaded
        rw [hul] at this
        exact this
      have huevsmem : ∀ cid chs, SyncEvent.playlistUpdated cid chs ∉ uevs := by
        intro cid chs hmem
        refine huevmem downloaded cid chs ?_
        rw [hul]
        exact hmem
      cases ures with
      | error e =>
        rw [commitPhase_ul_error o plan tgt e downloaded devs uevs hadd hdl hul]
        refine ⟨by simp [List.countP_append, hdevs0, huevs0], ?_⟩
        intro cid chs hmem
        rcases List.mem_append.mp hmem with h | h
        · exact absurd h (hdevsmem cid chs)
        · exact absurd h (huevsmem cid chs)
      | ok uploaded =>
        cases hup : o.updateResult with
        | error e =>
          rw [commitPhase_update_error o plan tgt e downloaded uploaded devs uevs
            hadd hdl hul hup]
          refine ⟨by simp [List.countP_append, hdevs0, huevs0], ?_⟩
          intro cid chs hmem
          rcases List.mem_append.mp hmem with h | h
          · exact absurd h (hdevsmem cid chs)
          · exact absurd h (huevsmem cid chs)
        | ok u =>
          rw [commitPhase_commit o plan tgt downloaded uploaded devs uevs
            hadd hdl hul hup]
          refine ⟨?_, fun cid chs _ => rfl⟩
          simp [List.countP_append, List.countP_cons, hdevs0, huevs0, isCommitEvent]
  · by_cases hrem : 0 < plan.toRemove
    · cases hup : o.updateResult with
      | error e =>
        rw [commitPhase_rm_error o plan tgt e hadd hrem hup]
        refine ⟨by simp, ?_⟩
        intro cid chs hmem
        simp at hmem
      | ok u =>
        rw [commitPhase_rm_commit o plan tgt hadd hrem hup]
        refine ⟨by simp [isCommitEvent], fun cid chs _ => rfl⟩
    · rw [commitPhase_noop o plan tgt hadd hrem]
      refine ⟨by simp, ?_⟩
      intro cid chs hmem
      simp at hmem

/-- Claim C8: when the plan has nothing to add and nothing to remove, the
run ends at the confirmation stage reporting "already in sync": the trace
shows no confirmation prompt, no download/upload, no playlist write and
no association persist — only workspace creation and removal. -/
theorem C8_already_in_sync (o : SyncOracle) (info : YouTubePlaylistInfo)
    (ytId : String) (tgt : ResolvedTarget) (card : YotoCard)
    (hinfo : o.playlistInfo = Except.ok info)
    (hid : o.playlistId = Except.ok ytId)
    (htgt : o.resolveTarget = Except.ok tgt)
    (hcard : o.getPlaylistCard = Except.ok card)
    (hadd : (generateSyncPlan o.search info.tracks card.content.chapters).toAdd = 0)
    (hrem : (generateSyncPlan o.search info.tracks card.content.chapters).toRemove
      = 0) :
    syncRun o = (Except.ok SyncOutcome.alreadyInSync,
      [SyncEvent.mkdirTemp, SyncEvent.removedTemp]) := by
  have hb : syncBody o = (Except.ok SyncOutcome.alreadyInSync, []) := by
    rw [syncBody_ok o info ytId tgt card hinfo hid htgt hcard]
    simp [hadd, hrem]
  unfold syncRun
  rw [hb]
  rfl

/-- Witness for C8: a target already holding the one source track. -/
theorem C8_witness :
    syncRun inSyncOracle = (Except.ok SyncOutcome.alreadyInSync,
      [SyncEvent.mkdirTemp, SyncEvent.removedTemp]) :=
  C8_already_in_sync inSyncOracle
    { id := "yt1", title := "My Mix", tracks := [mkTrack "ta" "Alpha"] }
    "PL1" { cardId := "card1", title := "Yoto Mix", isNew := false }
    (mkCard "card1" "Yoto Mix" [mkChapter "00" "Alpha"])
    rfl rfl rfl rfl (by decide) (by decide)

/-- Claim C5: (a) every run, whatever its outcome, removes the temporary
workspace last; (b) when a download fails, the run propagates that very
error, performs no upload, no playlist write and no association persist
(the only events besides the prompt are downloads of earlier items), and
still removes the workspace. -/
theorem C5_cleanup_and_fetch_abort :
    (∀ o : SyncOracle, ((syncRun o).2).getLast? = some SyncEvent.removedTemp) ∧
    (∀ (o : SyncOracle) (info : YouTubePlaylistInfo) (ytId : String)
      (tgt : ResolvedTarget) (card : YotoCard) (e : String)
      (devs : List SyncEvent),
      o.playlistInfo = Except.ok info →
      o.playlistId = Except.ok ytId →
      o.resolveTarget = Except.ok tgt →
      o.getPlaylistCard = Except.ok card →
      ¬((generateSyncPlan o.search info.tracks card.content.chapters).toAdd = 0 ∧
        (generateSyncPlan o.search info.tracks card.content.chapters).toRemove = 0) →
      o.confirmSync = true →
      0 < (generateSyncPlan o.search info.tracks card.content.chapters).toAdd →
      downloadLoop o
        (((generateSyncPlan o.search info.tracks card.content.chapters).items.filter
          (fun i => i.action = SyncAction.add)).filterMap
          (fun i => i.youtubeTrack)) = (Except.error e, devs) →
      syncRun o = (Except.error e,
        SyncEvent.mkdirTemp :: SyncEvent.confirmPrompt ::
          (devs ++ [SyncEvent.removedTemp])) ∧
      ∀ ev ∈ devs, ∃ tid, ev = SyncEvent.downloaded tid) := by
  constructor
  · intro o
    unfold syncRun
    rcases hb : syncBody o with ⟨res, evs⟩
    show (SyncEvent.mkdirTemp :: (evs ++ [SyncEvent.removedTemp])).getLast?
      = some SyncEvent.removedTemp
    rw [← List.cons_append]
    exact List.getLast?_concat _
  · intro o info ytId tgt card e devs hinfo hid htgt hcard hsync hconf hadd hdl
    have hcp : commitPhase o
        (generateSyncPlan o.search info.tracks card.content.chapters) tgt =
        (Except.error e, devs) :=
      commitPhase_dl_error o _ tgt e devs hadd hdl
    have hb : syncBody o = (Except.error e, SyncEvent.confirmPrompt :: devs) := by
      rw [syncBody_ok o info ytId tgt card hinfo hid htgt hcard]
      simp only [hconf]
      simp [hsync, hcp]
    constructor
    · unfold syncRun
      rw [hb]
      rfl
    · intro ev hev
      refine downloadLoop_events o
        (((generateSyncPlan o.search info.tracks card.content.chapters).items.filter
          (fun i => i.action = SyncAction.add)).filterMap
          (fun i => i.youtubeTrack)) ev ?_
      rw [hdl]
      exact hev

/-- Witness for C5 at a concrete failing run: the single download fails
immediately, the run reports that error, and the trace holds no upload,
no commit, no persist, ending in the workspace removal. -/
theorem C5_witness :
    syncRun fetchFailOracle = (Except.error "fetch failed",
      SyncEvent.mkdirTemp :: SyncEvent.confirmPrompt ::
        ([] ++ [SyncEvent.removedTemp])) ∧
    ∀ ev ∈ ([] : List SyncEvent), ∃ tid, ev = SyncEvent.downloaded tid :=
  C5_cleanup_and_fetch_abort.2 fetchFailOracle
    { id := "yt1", title := "My Mix", tracks := [mkTrack "ta" "Alpha"] }
    "PL1" { cardId := "card1", title := "Yoto Mix", isNew := false }
    (mkCard "card1" "Yoto Mix" []) "fetch failed" []
    rfl rfl rfl rfl (by decide) rfl (by decide) rfl

/-- When the association persist fails, the body: propagates that error
whenever the playlist write happened, never writes the playlist twice,
and never reports the updated outcome. -/
theorem syncBody_persist_error (o : SyncOracle) (e : String)
    (hp : o.persistResult = Except.error e) :
    ((∃ cid chs, SyncEvent.playlistUpdated cid chs ∈ (syncBody o).2) →
      (syncBody o).1 = Except.error e) ∧
    (syncBody o).2.countP isCommitEvent ≤ 1 ∧
    (syncBody o).1 ≠ Except.ok SyncOutcome.updated := by
  cases hinfo : o.playlistInfo with
  | error e' =>
    rw [syncBody_info_error o e' hinfo]
    simp
  | ok info =>
  cases hid : o.playlistId with
  | error e' =>
    rw [syncBody_id_error o info e' hinfo hid]
    simp
  | ok ytId =>
  cases htgt : o.resolveTarget with
  | error e' =>
    rw [syncBody_tgt_error o info ytId e' hinfo hid htgt]
    simp
  | ok tgt =>
  cases hcard : o.getPlaylistCard with
  | error e' =>
    rw [syncBody_card_error o info ytId tgt e' hinfo hid htgt hcard]
    simp
  | ok card =>
    by_cases hsync :
        (generateSyncPlan o.search info.tracks card.content.chapters).toAdd = 0 ∧
        (generateSyncPlan o.search info.tracks card.content.chapters).toRemove = 0
    · have hb : syncBody o = (Except.ok SyncOutcome.alreadyInSync, []) := by
        rw [syncBody_ok o info ytId tgt card hinfo hid htgt hcard]
        simp [hsync.1, hsync.2]
      rw [hb]
      simp
    · cases hconf : o.confirmSync with
      | false =>
        have hb : syncBody o =
            (Except.ok SyncOutcome.cancelled, [SyncEvent.confirmPrompt]) := by
          rw [syncBody_ok o info ytId tgt card hinfo hid htgt hcard]
          simp [hsync, hconf]
        rw [hb]
        simp [isCommitEvent]
      | true =>
        obtain ⟨hcount, hcommitmem⟩ := commitPhase_spec o
          (generateSyncPlan o.search info.tracks card.content.chapters) tgt
        rcases hcp : commitPhase o
          (generateSyncPlan o.search info.tracks card.content.chapters) tgt
          with ⟨cres, cevs⟩
        rw [hcp] at hcount hcommitmem
        cases cres with
        | error e' =>
          have hb : syncBody o =
              (Except.error e', SyncEvent.confirmPrompt :: cevs) := by
            rw [syncBody_ok o info ytId tgt card hinfo hid htgt hcard]
            simp only [hconf]
            simp [hsync, hcp]
          rw [hb]
          refine ⟨?_, ?_, by simp⟩
          · rintro ⟨cid, chs, hmem⟩
            rcases List.mem_cons.mp hmem with h | h
            · exact absurd h (by simp)
            · exact absurd (hcommitmem cid chs h) (by simp)
          · show (SyncEvent.confirmPrompt :: cevs).countP isCommitEvent ≤ 1
            rw [List.countP_cons]
            simp only [isCommitEvent]
            simpa using hcount
        | ok u =>
          have hb : syncBody o =
              (Except.error e, SyncEvent.confirmPrompt :: cevs) := by
            rw [syncBody_ok o info ytId tgt card hinfo hid htgt hcard]
            simp only [hconf]
            simp [hsync, hcp, hp]
          rw [hb]
          refine ⟨fun _ => rfl, ?_, by simp⟩
          show (SyncEvent.confirmPrompt :: cevs).countP isCommitEvent ≤ 1
          rw [List.countP_cons]
          simp only [isCommitEvent]
          simpa using hcount

/-- Claim C4, amended: when the association persist fails after a
successful commit, the commit is not undone (the playlist is written at
most once, with no compensating write), the workspace is still removed,
but the persist error PROPAGATES to the caller: the run reports that
error, not overall success. -/
theorem C4_amended (o : SyncOracle) (e : String)
    (hp : o.persistResult = Except.error e) :
    ((∃ cid chs, SyncEvent.playlistUpdated cid chs ∈ (syncRun o).2) →
      (syncRun o).1 = Except.error e) ∧
    (syncRun o).2.countP isCommitEvent ≤ 1 ∧
    (syncRun o).1 ≠ Except.ok SyncOutcome.updated ∧
    (syncRun o).2.getLast? = some SyncEvent.removedTemp := by
  obtain ⟨h1, h2, h3⟩ := syncBody_persist_error o e hp
  have hlast := C5_cleanup_and_fetch_abort.1 o
  rcases hb : syncBody o with ⟨res, evs⟩
  rw [hb] at h1 h2 h3
  have hrun : syncRun o =
      (res, SyncEvent.mkdirTemp :: (evs ++ [SyncEvent.removedTemp])) := by
    unfold syncRun
    rw [hb]
  rw [hrun] at hlast
  rw [hrun]
  refine ⟨?_, ?_, h3, hlast⟩
  · rintro ⟨cid, chs, hmem⟩
    simp only [List.mem_cons, List.mem_append, List.mem_singleton] at hmem
    rcases hmem with h | h | h
    · exact absurd h (by simp)
    · exact h1 ⟨cid, chs, h⟩
    · exact absurd h (by simp)
  · show (SyncEvent.mkdirTemp :: (evs ++ [SyncEvent.removedTemp])).countP
      isCommitEvent ≤ 1
    rw [List.countP_cons, List.countP_append, List.countP_cons]
    simp only [isCommitEvent, List.countP_nil]
    simpa using h2

/-- Counterexample to claim C4 as stated: a run in which the playlist
write succeeds and the association persist fails does NOT report overall
success — syncRun returns the persist error to the caller (the TypeScript
`sync` has no catch around `setPlaylistAssociation`, only a `finally`). -/
theorem C4_counterexample :
    (syncRun persistFailOracle).1 = Except.error "persist failed" ∧
    SyncEvent.playlistUpdated "card1"
        [createChapter "Alpha" "sha256abc" 1 (some 120) (some 1000)] ∈
      (syncRun persistFailOracle).2 ∧
    (syncRun persistFailOracle).2.getLast? = some SyncEvent.removedTemp :=
  ⟨rfl, by decide, by decide⟩

/-- Witness for the amended C4 at the concrete persist-failing run. -/
theorem C4_witness :
    ((∃ cid chs, SyncEvent.playlistUpdated cid chs ∈
        (syncRun persistFailOracle).2) →
      (syncRun persistFailOracle).1 = Except.error "persist failed") ∧
    (syncRun persistFailOracle).2.countP isCommitEvent ≤ 1 ∧
    (syncRun persistFailOracle).1 ≠ Except.ok SyncOutcome.updated ∧
    (syncRun persistFailOracle).2.getLast? = some SyncEvent.removedTemp :=
  C4_amended persistFailOracle "persist failed" rfl

/-- Claim C7: fuzzyMatchTrack accepts a candidate only when the best
(head) score is defined and STRICTLY below the 0.4 threshold; a best
score exactly equal to the threshold is rejected. -/
theorem C7_threshold_strict (s : SearchFn) (q : String) (cs : List YotoChapter) :
    (∀ c, fuzzyMatchTrack s q cs = some c →
      ∃ r rs sc, s q cs = r :: rs ∧ r.score = some sc ∧ sc < matchThreshold ∧
        r.item = c) ∧
    (∀ r rs, s q cs = r :: rs → r.score = some matchThreshold →
      fuzzyMatchTrack s q cs = none) := by
  constructor
  · intro c h
    exact fuzzyMatchTrack_eq_some s q cs c h
  · intro r rs hr hsc
    by_cases he : cs.isEmpty
    · simp [fuzzyMatchTrack, he]
    · simp [fuzzyMatchTrack, he, hr, hsc]

/-- Witness for C7: a candidate scoring exactly 0.4 is rejected. -/
theorem C7_witness :
    fuzzyMatchTrack atThresholdSearch "Alpha" [mkChapter "00" "Alpha"] = none :=
  (C7_threshold_strict atThresholdSearch "Alpha" [mkChapter "00" "Alpha"]).2
    { item := mkChapter "00" "Alpha", score := some matchThreshold } [] rfl rfl

/-- Claim C9: the update payload changes only the title and chapters it
is given; cardId, activity, restricted, config, version and metadata are
copied verbatim from the freshly fetched card, and an omitted update
field keeps the existing value. -/
theorem C9_frame (existing : YotoCard) (updates : PlaylistUpdates) :
    (updatePlaylistPayload existing updates).cardId = existing.cardId ∧
    (updatePlaylistPayload existing updates).content.activity =
      existing.content.activity ∧
    (updatePlaylistPayload existing updates).content.restricted =
      existing.content.restricted ∧
    (updatePlaylistPayload existing updates).content.config =
      existing.content.config ∧
    (updatePlaylistPayload existing updates).content.version =
      existing.content.version ∧
    (updatePlaylistPayload existing updates).metadata = existing.metadata ∧
    (updates.title = none →
      (updatePlaylistPayload existing updates).title = existing.title) ∧
    (∀ t, updates.title = some t →
      (updatePlaylistPayload existing updates).title = t) ∧
    (updates.chapters = none →
      (updatePlaylistPayload existing updates).content.chapters =
        existing.content.chapters) ∧
    (∀ chs, updates.chapters = some chs →
      (updatePlaylistPayload existing updates).content.chapters = chs) := by
  refine ⟨rfl, rfl, rfl, rfl, rfl, rfl, ?_, ?_, ?_, ?_⟩
  · intro h
    simp [updatePlaylistPayload, h]
  · intro t h
    simp [updatePlaylistPayload, h]
  · intro h
    simp [updatePlaylistPayload, h]
  · intro chs h
    simp [updatePlaylistPayload, h]

/-- Witness for C9: updating only the chapters keeps the title and
installs exactly the given chapters. -/
theorem C9_witness :
    (updatePlaylistPayload (mkCard "card1" "Yoto Mix" [])
      { title := none, chapters := some [mkChapter "00" "Alpha"] }).title =
        "Yoto Mix" ∧
    (updatePlaylistPayload (mkCard "card1" "Yoto Mix" [])
      { title := none, chapters := some [mkChapter "00" "Alpha"] }).content.chapters =
        [mkChapter "00" "Alpha"] :=
  ⟨(C9_frame (mkCard "card1" "Yoto Mix" [])
      { title := none, chapters := some [mkChapter "00" "Alpha"] }).2.2.2.2.2.2.1 rfl,
   (C9_frame (mkCard "card1" "Yoto Mix" [])
      { title := none, chapters := some [mkChapter "00" "Alpha"] }).2.2.2.2.2.2.2.2.2
     [mkChapter "00" "Alpha"] rfl⟩

/-- Claim C10: createChapter keys a chapter by the decimal string of
`position - 1` left-padded with zeros to width 2, independently of the
title, asset reference, duration and file size; and a created chapter's
key CAN coincide with a kept chapter's key in the same committed list
(the commit of plan keep(Alpha)/add(Beta)/keep(Gamma) holds keys
["00","01","01"], the "01" of the created Beta equal to the kept Gamma's). -/
theorem C10_chapter_key :
    (∀ (t s : String) (p : Int) (d f : Option Nat),
      (createChapter t s p d f).key = padStart2 (jsIntString (p - 1))) ∧
    (∀ (t₁ s₁ : String) (d₁ f₁ : Option Nat) (t₂ s₂ : String)
      (d₂ f₂ : Option Nat) (p : Int),
      (createChapter t₁ s₁ p d₁ f₁).key = (createChapter t₂ s₂ p d₂ f₂).key) ∧
    (∀ (t s : String) (d f : Option Nat), (createChapter t s 1 d f).key = "00") ∧
    (∀ (t s : String) (d f : Option Nat), (createChapter t s 11 d f).key = "10") ∧
    committedABC.map (fun c => c.key) = ["00", "01", "01"] ∧
    committedABC[1]? =
      some (createChapter "Beta" "sha256abc" 2 (some 120) (some 1000)) ∧
    committedABC[2]? = some (mkChapter "01" "Gamma") := by
  refine ⟨fun t s p d f => rfl, fun t₁ s₁ d₁ f₁ t₂ s₂ d₂ f₂ p => rfl,
    fun t s d f => by
      show padStart2 (jsIntString (1 - 1)) = "00"
      decide,
    fun t s d f => by
      show padStart2 (jsIntString (11 - 1)) = "10"
      decide,
    by decide, by decide, by decide⟩
